import Mathlib

/-!
Verification of the lyra-mvp document-intake and analysis pipeline.

This file gives a shallow embedding of the Convex backend of the repository
(`packages/backend/convex/schema.ts`, `documents.ts`, `lyra.ts`,
`practices.ts`) and of the client uploader validation
(`apps/web/src/components/document-uploader.tsx`), and proves properties of
the embedded operations.

Modelling conventions:
* Convex table rows are association lists `List (Nat × α)` kept in creation
  order; `_id` values come from a single monotone counter `nextId`, which
  matches Convex ids being globally unique and creation-ordered per table.
* Every Convex mutation is a pure function `DB → args → Except String (DB × result)`.
  A Convex mutation is a transaction: when the handler throws, all of its
  writes are rolled back.  Returning `Except.error` (with the thrown message)
  and *no* successor state is therefore a faithful model of a failed mutation.
* `ctx.db.patch` throws when the target row no longer exists; `patchDoc` /
  `patchAnalysis` model this with an `Except.error` result.
* The scheduler (`ctx.scheduler.runAfter(0, internal.lyra.analyzeDocument, …)`)
  is modelled by a list of `Job`s in the state.  A `Job` carries the exact
  arguments of the scheduled `analyzeDocument` call plus a program counter
  (`phase`): Convex runs each scheduled action exactly once, and
  `analyzeDocument` is straight-line code that first runs the
  `updateAnalysisStatus … processing` mutation and then exactly one of
  `completeAnalysis` / `failAnalysis`.  The `phase` field records how far the
  (asynchronous, non-atomic) action has run; mutation-granularity interleaving
  with other operations stays fully visible.
* `Date.now()` is an explicit `now : Nat` argument; the authenticated user
  (`authComponent.safeGetAuthUser`) is an explicit `Option User` argument;
  the external model call (`generateObject`) is an explicit oracle argument
  `Except String InsurancePlanReport` (success with a schema-conforming
  report, or a failure whose `Error.message` is the given string).
-/

deriving instance DecidableEq for Except

/-- JavaScript's `String.prototype.startsWith`, embedded on the character
list so that it evaluates inside the kernel. -/
def strStartsWith (s p : String) : Bool := p.data.isPrefixOf s.data

/-! ## Data model (schema.ts) -/

/-- `documents.status` column: `uploaded | queued | processing | complete | error`. -/
inductive DocStatus
  | uploaded
  | queued
  | processing
  | complete
  | error
deriving DecidableEq

/-- `analyses.status` column: `queued | processing | complete | error`. -/
inductive AStatus
  | queued
  | processing
  | complete
  | error
deriving DecidableEq

/-- The document status written by the dual patches of `updateAnalysisStatus`,
`completeAnalysis` and `failAnalysis`: the same literal as the analysis status. -/
def AStatus.toDoc : AStatus → DocStatus
  | .queued => .queued
  | .processing => .processing
  | .complete => .complete
  | .error => .error

/-- `practiceMembers.role` column. -/
inductive Role
  | owner
  | member
deriving DecidableEq

/-- A row of the `practices` table. -/
structure Practice where
  name : String
  ownerId : String
  createdAt : Nat
  updatedAt : Nat
deriving DecidableEq

/-- A row of the `practiceMembers` table. -/
structure PracticeMember where
  practiceId : Nat
  userId : String
  role : Role
  createdAt : Nat
deriving DecidableEq

/-- A row of the `documents` table. -/
structure Document where
  practiceId : Nat
  storageId : Nat
  filename : String
  contentType : String
  sizeBytes : Int
  status : DocStatus
  uploadedBy : String
  createdAt : Nat
  updatedAt : Nat
deriving DecidableEq

/-! ## The report schema (lyra.ts, `InsurancePlanReportSchema`)

The zod schema fixed in `lyra.ts`.  The `analyses.report` column is declared
`v.optional(v.any())`, but its only writer (`completeAnalysis`, invoked from
`analyzeDocument`) stores the `generateObject` output, which conforms to this
schema; we therefore type the stored payload by the schema. -/

/-- `confidence: z.enum(["high", "medium", "low"])`. -/
inductive Confidence
  | high
  | medium
  | low
deriving DecidableEq

/-- `imageQuality: z.enum(["good", "fair", "poor"])`. -/
inductive ImageQuality
  | good
  | fair
  | poor
deriving DecidableEq

/-- `planOverview` object of the report schema. -/
structure PlanOverview where
  planName : String
  carrier : String
  planType : String
  effectiveDate : String
  groupNumber : String
deriving DecidableEq

/-- The `{individual, family, inNetwork, outOfNetwork}` shape used by both
`deductible` and `outOfPocketMax`. -/
structure AmountBreakdown where
  individual : String
  family : String
  inNetwork : String
  outOfNetwork : String
deriving DecidableEq

/-- An entry of `costSharing.copays`. -/
structure CopayEntry where
  service : String
  amount : String
  notes : String
deriving DecidableEq

/-- An entry of `costSharing.coinsurance`. -/
structure CoinsuranceEntry where
  service : String
  inNetwork : String
  outOfNetwork : String
deriving DecidableEq

/-- `costSharing` object of the report schema. -/
structure CostSharing where
  deductible : AmountBreakdown
  outOfPocketMax : AmountBreakdown
  copays : List CopayEntry
  coinsurance : List CoinsuranceEntry
deriving DecidableEq

/-- An entry of `coverageDetails[].items`. -/
structure CoverageItem where
  service : String
  coverage : String
  limitations : String
  priorAuth : Bool
deriving DecidableEq

/-- An entry of `coverageDetails`. -/
structure CoverageCategory where
  category : String
  items : List CoverageItem
deriving DecidableEq

/-- An entry of `prescriptionDrug.tiers`. -/
structure DrugTier where
  tier : String
  copay : String
  coinsurance : String
deriving DecidableEq

/-- `prescriptionDrug` object of the report schema. -/
structure PrescriptionDrug where
  tiers : List DrugTier
  deductible : String
  mailOrder : String
deriving DecidableEq

/-- An entry of `additionalBenefits`. -/
structure AdditionalBenefit where
  benefit : String
  details : String
deriving DecidableEq

/-- An entry of `extractedFields`. -/
structure ExtractedField where
  fieldName : String
  fieldValue : String
  category : String
  confidence : Confidence
deriving DecidableEq

/-- `documentQuality` object of the report schema. -/
structure DocumentQuality where
  isReadable : Bool
  imageQuality : ImageQuality
  missingInfo : List String
  suggestedActions : List String
deriving DecidableEq

/-- The full structured report produced by `generateObject` against
`InsurancePlanReportSchema`. -/
structure InsurancePlanReport where
  planOverview : PlanOverview
  costSharing : CostSharing
  coverageDetails : List CoverageCategory
  prescriptionDrug : PrescriptionDrug
  additionalBenefits : List AdditionalBenefit
  importantNotes : List String
  extractedFields : List ExtractedField
  documentQuality : DocumentQuality
deriving DecidableEq

/-- A row of the `analyses` table. -/
structure Analysis where
  documentId : Nat
  practiceId : Nat
  status : AStatus
  report : Option InsurancePlanReport
  errorMessage : Option String
  createdBy : String
  createdAt : Nat
  updatedAt : Nat
deriving DecidableEq

/-- The authenticated identity returned by `authComponent.safeGetAuthUser`:
`user._id` and the (possibly absent) `user.email`. -/
structure User where
  id : String
  email : Option String
deriving DecidableEq

/-- Program counter of a scheduled `analyzeDocument` action: not yet run,
`updateAnalysisStatus … processing` done, terminal mutation done. -/
inductive JobPhase
  | pending
  | started
  | done
deriving DecidableEq

/-- A scheduled `analyzeDocument` action together with its arguments
(as passed by `runLyra` to `ctx.scheduler.runAfter`). -/
structure Job where
  analysisId : Nat
  documentUrl : String
  contentType : String
  phase : JobPhase
deriving DecidableEq

/-- The entity store plus the blob store and the scheduler queue. -/
structure DB where
  practices : List (Nat × Practice)
  practiceMembers : List (Nat × PracticeMember)
  documents : List (Nat × Document)
  analyses : List (Nat × Analysis)
  /-- blob storage: `storageId ↦ download URL` (`ctx.storage.getUrl` returns
  the URL when the blob exists, `null` otherwise). -/
  storage : List (Nat × String)
  scheduled : List Job
  nextId : Nat
deriving DecidableEq

/-- The empty store. -/
def initDB : DB :=
  { practices := [], practiceMembers := [], documents := [], analyses := []
    storage := [], scheduled := [], nextId := 0 }

/-! ## Row-level operations on tables -/

/-- `ctx.db.get(id)`: the row with the given id, if any. -/
def getRow (t : List (Nat × α)) (k : Nat) : Option α :=
  (t.find? (fun p => p.1 == k)).map (fun p => p.2)

/-- `ctx.db.patch(id, fields)`: merge updated fields into the row with the
given id (no-op on the list when the id is absent; the `Except` wrappers
`patchDoc` / `patchAnalysis` below add the throw-on-missing behaviour). -/
def patchRow (t : List (Nat × α)) (k : Nat) (f : α → α) : List (Nat × α) :=
  t.map (fun p => if p.1 == k then (p.1, f p.2) else p)

/-- `ctx.db.delete(id)`: remove the row with the given id. -/
def delRow (t : List (Nat × α)) (k : Nat) : List (Nat × α) :=
  t.filter (fun p => p.1 != k)

/-- The ids of a table's rows. -/
def keysOf (t : List (Nat × α)) : List Nat :=
  t.map (fun p => p.1)

/-- Advance the program counter of the scheduled action for `analysisId`. -/
def setJobPhase (js : List Job) (analysisId : Nat) (ph : JobPhase) : List Job :=
  js.map (fun j => if j.analysisId == analysisId then { j with phase := ph } else j)

/-! ## Access control helpers (documents.ts / lyra.ts / practices.ts) -/

/-- `requireAuth`: resolve the authenticated user or throw `"Not authenticated"`. -/
def requireAuth (auth : Option User) : Except String User :=
  match auth with
  | none => .error "Not authenticated"
  | some user => .ok user

/-- `requirePracticeMembership`: first membership of the user
(`by_user` index, creation order) or throw. -/
def requirePracticeMembership (s : DB) (userId : String) : Except String Nat :=
  match s.practiceMembers.find? (fun p => p.2.userId == userId) with
  | none => .error "User is not a member of any practice"
  | some membership => .ok membership.2.practiceId

/-- `verifyPracticeAccess`: throw unless a membership row links the practice
and the user (`by_practice_and_user` index). -/
def verifyPracticeAccess (s : DB) (practiceId : Nat) (userId : String) :
    Except String Unit :=
  match s.practiceMembers.find?
      (fun p => p.2.practiceId == practiceId && p.2.userId == userId) with
  | none => .error "Access denied to this practice"
  | some _ => .ok ()

/-! ## patch wrappers (`ctx.db.patch` throws when the row is missing) -/

/-- `ctx.db.patch` on the `documents` table. -/
def patchDoc (s : DB) (documentId : Nat) (f : Document → Document) :
    Except String DB :=
  match getRow s.documents documentId with
  | none => .error "Update on nonexistent document"
  | some _ => .ok { s with documents := patchRow s.documents documentId f }

/-- `ctx.db.patch` on the `analyses` table. -/
def patchAnalysis (s : DB) (analysisId : Nat) (f : Analysis → Analysis) :
    Except String DB :=
  match getRow s.analyses analysisId with
  | none => .error "Update on nonexistent analysis"
  | some _ => .ok { s with analyses := patchRow s.analyses analysisId f }

/-! ## documents.ts -/

/-- `createDocument` mutation: requires authentication and a practice
membership; inserts a `documents` row with status `uploaded` and returns its
id.  No validation of `contentType` or `sizeBytes` is performed. -/
def createDocument (s : DB) (auth : Option User) (storageId : Nat)
    (filename contentType : String) (sizeBytes : Int) (now : Nat) :
    Except String (DB × Nat) :=
  match requireAuth auth with
  | .error e => .error e
  | .ok user =>
  match requirePracticeMembership s user.id with
  | .error e => .error e
  | .ok practiceId =>
    let documentId := s.nextId
    .ok ({ s with
      documents := s.documents ++ [(documentId,
        { practiceId := practiceId, storageId := storageId, filename := filename
          contentType := contentType, sizeBytes := sizeBytes, status := .uploaded
          uploadedBy := user.id, createdAt := now, updatedAt := now })]
      nextId := s.nextId + 1 }, documentId)

/-- `getDocument` query: auth, fetch, access check; returns the document
together with the resolved (possibly null) download URL. -/
def getDocument (s : DB) (auth : Option User) (documentId : Nat) :
    Except String (Document × Option String) :=
  match auth with
  | none => .error "Not authenticated"
  | some user =>
  match getRow s.documents documentId with
  | none => .error "Document not found"
  | some document =>
  match verifyPracticeAccess s document.practiceId user.id with
  | .error e => .error e
  | .ok _ => .ok (document, getRow s.storage document.storageId)

/-- The row-deletion side effects of `deleteDocument`, in execution order. -/
inductive DeleteEffect
  | analysisRow (analysisId : Nat)
  | blob (storageId : Nat)
  | documentRow (documentId : Nat)
deriving DecidableEq

/-- `deleteDocument` mutation: auth and access check, then delete every
analysis referencing the document (collected via the `by_document` index),
then delete the backing blob, then delete the document row.  The returned
effect list records the deletions in execution order. -/
def deleteDocument (s : DB) (auth : Option User) (documentId : Nat) :
    Except String (DB × List DeleteEffect) :=
  match requireAuth auth with
  | .error e => .error e
  | .ok user =>
  match getRow s.documents documentId with
  | none => .error "Document not found"
  | some document =>
  match verifyPracticeAccess s document.practiceId user.id with
  | .error e => .error e
  | .ok _ =>
    let analyses := s.analyses.filter (fun p => p.2.documentId == documentId)
    let s₁ : DB := { s with analyses := (analyses.map (fun p => p.1)).foldl delRow s.analyses }
    let s₂ : DB := { s₁ with storage := delRow s₁.storage document.storageId }
    let s₃ : DB := { s₂ with documents := delRow s₂.documents documentId }
    .ok (s₃, analyses.map (fun p => DeleteEffect.analysisRow p.1) ++
      [DeleteEffect.blob document.storageId, DeleteEffect.documentRow documentId])

/-! ## practices.ts -/

/-- The practice name chosen by `getOrCreatePractice`: guest naming for the
anonymous email convention (`temp-`/`temp@` prefixes), otherwise derived from
the email (JavaScript renders an absent email as the string `undefined` in
the template literal). -/
def practiceNameFor (user : User) : String :=
  let isAnonymous : Bool :=
    match user.email with
    | some e => strStartsWith e "temp-" || strStartsWith e "temp@"
    | none => false
  if isAnonymous then "Guest Practice"
  else (match user.email with | some e => e | none => "undefined") ++ "\x27s Practice"

/-- `getOrCreatePractice` mutation.  With an existing membership: fetch the
practice (throwing if the row is gone) and return it.  Otherwise: create the
practice (name derived from the email; guest naming for `temp-`/`temp@`
emails) and an `owner` membership, and return the freshly read practice row.
The returned `Nat` is the `_id` carried by the returned practice document. -/
def getOrCreatePractice (s : DB) (auth : Option User) (now : Nat) :
    Except String (DB × Nat × Option Practice) :=
  match requireAuth auth with
  | .error e => .error e
  | .ok user =>
  match s.practiceMembers.find? (fun p => p.2.userId == user.id) with
  | some existingMembership =>
    match getRow s.practices existingMembership.2.practiceId with
    | none => .error "Practice not found"
    | some practice => .ok (s, existingMembership.2.practiceId, some practice)
  | none =>
    let practiceId := s.nextId
    let s₁ : DB := { s with
      practices := s.practices ++ [(practiceId,
        { name := practiceNameFor user, ownerId := user.id
          createdAt := now, updatedAt := now })]
      nextId := s.nextId + 1 }
    let s₂ : DB := { s₁ with
      practiceMembers := s₁.practiceMembers ++ [(s₁.nextId,
        { practiceId := practiceId, userId := user.id, role := .owner, createdAt := now })]
      nextId := s₁.nextId + 1 }
    .ok (s₂, practiceId, getRow s₂.practices practiceId)

/-! ## lyra.ts: the analysis orchestrator -/

/-- `runLyra` mutation (`packages/backend/convex/lyra.ts` callers name it
`api.lyra.runLyra`): auth and access check, insert a fresh `queued` analysis,
patch the document to `queued`, resolve the blob URL (throwing
`"Could not get document URL"` when the blob is gone — the whole mutation
then rolls back), and schedule `analyzeDocument` once with the analysis id,
the resolved URL and the document's content type.  Returns the analysis id. -/
def runLyra (s : DB) (auth : Option User) (documentId : Nat) (now : Nat) :
    Except String (DB × Nat) :=
  match requireAuth auth with
  | .error e => .error e
  | .ok user =>
  match getRow s.documents documentId with
  | none => .error "Document not found"
  | some document =>
  match verifyPracticeAccess s document.practiceId user.id with
  | .error e => .error e
  | .ok _ =>
    let analysisId := s.nextId
    let s₁ : DB := { s with
      analyses := s.analyses ++ [(analysisId,
        { documentId := documentId, practiceId := document.practiceId
          status := .queued, report := none, errorMessage := none
          createdBy := user.id, createdAt := now, updatedAt := now })]
      nextId := s.nextId + 1 }
    match patchDoc s₁ documentId (fun d => { d with status := .queued, updatedAt := now }) with
    | .error e => .error e
    | .ok s₂ =>
    match getRow s₂.storage document.storageId with
    | none => .error "Could not get document URL"
    | some documentUrl =>
      .ok ({ s₂ with scheduled := s₂.scheduled ++
        [{ analysisId := analysisId, documentUrl := documentUrl
           contentType := document.contentType, phase := .pending }] }, analysisId)

/-- `updateAnalysisStatus` internal mutation: silently a no-op when the
analysis id no longer resolves; otherwise patch the analysis and its parent
document to the same status with refreshed timestamps. -/
def updateAnalysisStatus (s : DB) (analysisId : Nat) (status : AStatus) (now : Nat) :
    Except String DB :=
  match getRow s.analyses analysisId with
  | none => .ok s
  | some analysis =>
    match patchAnalysis s analysisId (fun a => { a with status := status, updatedAt := now }) with
    | .error e => .error e
    | .ok s₁ =>
      patchDoc s₁ analysis.documentId
        (fun d => { d with status := status.toDoc, updatedAt := now })

/-- `completeAnalysis` internal mutation: no-op when the analysis is gone;
otherwise store the report and set analysis and parent document to `complete`. -/
def completeAnalysis (s : DB) (analysisId : Nat) (report : InsurancePlanReport)
    (now : Nat) : Except String DB :=
  match getRow s.analyses analysisId with
  | none => .ok s
  | some analysis =>
    match patchAnalysis s analysisId
        (fun a => { a with status := .complete, report := some report, updatedAt := now }) with
    | .error e => .error e
    | .ok s₁ =>
      patchDoc s₁ analysis.documentId
        (fun d => { d with status := .complete, updatedAt := now })

/-- `failAnalysis` internal mutation: no-op when the analysis is gone;
otherwise store the error message and set analysis and parent document to
`error`. -/
def failAnalysis (s : DB) (analysisId : Nat) (errorMessage : String) (now : Nat) :
    Except String DB :=
  match getRow s.analyses analysisId with
  | none => .ok s
  | some analysis =>
    match patchAnalysis s analysisId
        (fun a => { a with status := .error, errorMessage := some errorMessage
                           updatedAt := now }) with
    | .error e => .error e
    | .ok s₁ =>
      patchDoc s₁ analysis.documentId
        (fun d => { d with status := .error, updatedAt := now })

/-- The media-kind classification of `analyzeDocument`: `image/*` is passed
through, `application/pdf` is accepted, anything else is unsupported
(`mediaType === undefined`). -/
def mediaTypeFor (contentType : String) : Option String :=
  if strStartsWith contentType "image/" then some contentType
  else if contentType == "application/pdf" then some "application/pdf"
  else none

/-- The `try` block of `analyzeDocument` after the initial `processing`
transition: throw `"Unsupported content type: …"` for an unclassifiable media
type, otherwise submit to the model (the `modelResult` oracle) and run
`completeAnalysis`. -/
def analyzeAttempt (s : DB) (analysisId : Nat) (contentType : String) (now : Nat)
    (modelResult : Except String InsurancePlanReport) : Except String DB :=
  match mediaTypeFor contentType with
  | none => .error ("Unsupported content type: " ++ contentType)
  | some _ =>
    match modelResult with
    | .error e => .error e
    | .ok report => completeAnalysis s analysisId report now

/-- The body of `analyzeDocument` after the initial `processing` transition:
the `try` block (`analyzeAttempt`), with whatever it throws (including a
failure of `completeAnalysis` itself) caught and forwarded to `failAnalysis`. -/
def analyzeFinish (s : DB) (analysisId : Nat) (contentType : String) (now : Nat)
    (modelResult : Except String InsurancePlanReport) : Except String DB :=
  match analyzeAttempt s analysisId contentType now modelResult with
  | .ok s' => .ok s'
  | .error errorMessage => failAnalysis s analysisId errorMessage now

/-- `analyzeDocument` internal action.  It is not a transaction: each
`ctx.runMutation` is its own atomic unit, so the two halves take separate
`now` arguments and, in the step relation below, run as separate steps.
The initial `updateAnalysisStatus` call sits outside the `try`, so its
(theoretical) failure would propagate. -/
def analyzeDocument (s : DB) (analysisId : Nat) (documentUrl contentType : String)
    (now₁ now₂ : Nat) (modelResult : Except String InsurancePlanReport) :
    Except String DB :=
  match updateAnalysisStatus s analysisId .processing now₁ with
  | .error e => .error e
  | .ok s₁ => analyzeFinish s₁ analysisId contentType now₂ modelResult

/-! ## Client uploader validation (document-uploader.tsx) -/

/-- `ACCEPTED_TYPES` of the client uploader. -/
def ACCEPTED_TYPES : List String :=
  ["application/pdf", "image/png", "image/jpeg", "image/jpg"]

/-- `MAX_FILE_SIZE` of the client uploader (10MB). -/
def MAX_FILE_SIZE : Nat := 10 * 1024 * 1024

/-- Outcome of `handleFileSelect` for a present file. -/
inductive SelectOutcome
  | rejectedType
  | rejectedSize
  | selected
deriving DecidableEq

/-- The validation logic of `handleFileSelect`: reject a type outside
`ACCEPTED_TYPES`, then reject a size above `MAX_FILE_SIZE`, else select. -/
def handleFileSelect (fileType : String) (fileSize : Nat) : SelectOutcome :=
  if !(ACCEPTED_TYPES.contains fileType) then .rejectedType
  else if fileSize > MAX_FILE_SIZE then .rejectedSize
  else .selected

/-! ## Lemmas about the row-level operations -/

theorem getRow_nil (k : Nat) : getRow ([] : List (Nat × α)) k = none := rfl

theorem getRow_cons (i : Nat) (a : α) (t : List (Nat × α)) (k : Nat) :
    getRow ((i, a) :: t) k = if i = k then some a else getRow t k := by
  by_cases h : i = k
  · subst h; simp [getRow, List.find?_cons]
  · simp [getRow, List.find?_cons, h]

theorem getRow_append (t u : List (Nat × α)) (k : Nat) :
    getRow (t ++ u) k =
      match getRow t k with
      | some a => some a
      | none => getRow u k := by
  induction t with
  | nil => simp [getRow_nil]
  | cons p t ih =>
    rw [List.cons_append, ← p.eta, getRow_cons, getRow_cons]
    by_cases h : p.1 = k
    · simp [h]
    · simp [h, ih]

theorem getRow_eq_none_of_bound (t : List (Nat × α)) (n : Nat)
    (hb : ∀ k ∈ keysOf t, k < n) : getRow t n = none := by
  induction t with
  | nil => rfl
  | cons p t ih =>
    rw [← p.eta, getRow_cons]
    have h1 : p.1 < n := hb p.1 (by simp [keysOf])
    rw [if_neg (Nat.ne_of_lt h1)]
    exact ih (fun k hk => hb k (by simp [keysOf] at hk ⊢; exact Or.inr hk))

theorem getRow_append_fresh (t : List (Nat × α)) (a : α) (n : Nat)
    (hb : ∀ k ∈ keysOf t, k < n) :
    getRow (t ++ [(n, a)]) n = some a := by
  rw [getRow_append, getRow_eq_none_of_bound t n hb, getRow_cons, if_pos rfl]

theorem getRow_append_old (t u : List (Nat × α)) (k : Nat) (a : α)
    (h : getRow t k = some a) : getRow (t ++ u) k = some a := by
  rw [getRow_append, h]


theorem keysOf_cons (p : Nat × α) (t : List (Nat × α)) :
    keysOf (p :: t) = p.1 :: keysOf t := rfl

theorem getRow_mem {t : List (Nat × α)} {k : Nat} {a : α}
    (h : getRow t k = some a) : (k, a) ∈ t := by
  induction t with
  | nil => simp [getRow_nil] at h
  | cons p t ih =>
    rw [← p.eta, getRow_cons] at h
    by_cases hk : p.1 = k
    · rw [if_pos hk] at h
      injection h with h
      subst hk; subst h
      exact List.mem_cons_self _ _
    · rw [if_neg hk] at h
      exact List.mem_cons_of_mem _ (ih h)

theorem mem_getRow {t : List (Nat × α)} {k : Nat} {a : α}
    (hnd : (keysOf t).Nodup) (h : (k, a) ∈ t) : getRow t k = some a := by
  induction t with
  | nil => simp at h
  | cons p t ih =>
    rw [keysOf_cons, List.nodup_cons] at hnd
    rw [← p.eta, getRow_cons]
    rcases List.mem_cons.mp h with h1 | h1
    · have hk : k = p.1 := congrArg Prod.fst h1
      have ha : a = p.2 := congrArg Prod.snd h1
      rw [if_pos hk.symm, ha]
    · have hk : p.1 ≠ k := by
        intro he
        exact hnd.1 (he ▸ List.mem_map.mpr ⟨(k, a), h1, rfl⟩)
      rw [if_neg hk]
      exact ih hnd.2 h1

theorem getRow_patchRow (t : List (Nat × α)) (i : Nat) (f : α → α) (k : Nat) :
    getRow (patchRow t i f) k = if i = k then (getRow t k).map f else getRow t k := by
  unfold getRow patchRow
  rw [List.find?_map]
  have hpred : ((fun p : Nat × α => p.1 == k) ∘ fun p : Nat × α =>
      if p.1 == i then (p.1, f p.2) else p) = fun p : Nat × α => p.1 == k := by
    funext p
    by_cases h : p.1 = i <;> simp [Function.comp, h]
  rw [hpred]
  cases hf : t.find? (fun p => p.1 == k) with
  | none => by_cases hik : i = k <;> simp [hik]
  | some q =>
    have hq : q.1 = k := by simpa using List.find?_some hf
    by_cases hik : i = k
    · simp [hik, hq]
    · have hki : ¬ k = i := fun he => hik he.symm
      simp [hik, hq, hki]

theorem getRow_delRow (t : List (Nat × α)) (i k : Nat) :
    getRow (delRow t i) k = if i = k then none else getRow t k := by
  induction t with
  | nil => by_cases h : i = k <;> simp [delRow, getRow_nil, h]
  | cons p t ih =>
    have hd : delRow (p :: t) i =
        if p.1 != i then p :: delRow t i else delRow t i := by
      simp [delRow, List.filter_cons]
    rw [hd]
    by_cases hpi : p.1 = i
    · rw [if_neg (by simp [hpi])]
      rw [ih]
      by_cases hik : i = k
      · rw [if_pos hik, if_pos hik]
      · have hpk : ¬ p.1 = k := by rw [hpi]; exact hik
        rw [if_neg hik, if_neg hik, ← p.eta, getRow_cons, if_neg hpk]
    · rw [if_pos (by simp [hpi])]
      rw [← p.eta, getRow_cons, getRow_cons]
      by_cases hpk : p.1 = k
      · have hik : ¬ i = k := fun he => hpi (hpk.trans he.symm)
        rw [if_pos hpk, if_neg hik, if_pos hpk]
      · rw [if_neg hpk, if_neg hpk, ih]

theorem keysOf_append (t u : List (Nat × α)) :
    keysOf (t ++ u) = keysOf t ++ keysOf u := by
  simp [keysOf]

theorem keysOf_patchRow (t : List (Nat × α)) (i : Nat) (f : α → α) :
    keysOf (patchRow t i f) = keysOf t := by
  unfold keysOf patchRow
  rw [List.map_map]
  apply List.map_congr_left
  intro p _
  by_cases h : p.1 = i <;> simp [h]

theorem mem_patchRow {t : List (Nat × α)} {i : Nat} {f : α → α} {q : Nat × α}
    (h : q ∈ patchRow t i f) :
    (q ∈ t ∧ ¬ q.1 = i) ∨ ∃ a, (i, a) ∈ t ∧ q = (i, f a) := by
  rcases List.mem_map.mp h with ⟨p, hp, he⟩
  by_cases hpi : p.1 = i
  · right
    refine ⟨p.2, by rw [← hpi, p.eta]; exact hp, ?_⟩
    rw [if_pos (by simp [hpi])] at he
    rw [← he, hpi]
  · left
    rw [if_neg (by simp [hpi])] at he
    rw [← he]
    exact ⟨hp, hpi⟩

theorem sublist_delRow (t : List (Nat × α)) (i : Nat) : (delRow t i).Sublist t :=
  List.filter_sublist t

theorem foldl_delRow (ids : List Nat) (t : List (Nat × α)) :
    ids.foldl delRow t = t.filter (fun p => !(ids.contains p.1)) := by
  induction ids generalizing t with
  | nil => simp
  | cons i ids ih =>
    rw [List.foldl_cons, ih, delRow, List.filter_filter]
    apply List.filter_congr
    intro p _
    by_cases h : p.1 = i <;> by_cases h2 : p.1 ∈ ids <;>
      simp [h, h2, List.contains_cons]

theorem jobIds_setJobPhase (js : List Job) (analysisId : Nat) (ph : JobPhase) :
    (setJobPhase js analysisId ph).map Job.analysisId = js.map Job.analysisId := by
  unfold setJobPhase
  rw [List.map_map]
  apply List.map_congr_left
  intro j _
  by_cases h : j.analysisId = analysisId <;> simp [h]

theorem mem_setJobPhase {js : List Job} {analysisId : Nat} {ph : JobPhase} {j : Job}
    (h : j ∈ setJobPhase js analysisId ph) :
    (j ∈ js ∧ j.analysisId ≠ analysisId) ∨
      (∃ j₀, j₀ ∈ js ∧ j₀.analysisId = analysisId ∧ j = { j₀ with phase := ph }) := by
  rcases List.mem_map.mp h with ⟨j₀, hj₀, he⟩
  by_cases hid : j₀.analysisId = analysisId
  · right
    rw [if_pos (by simp [hid])] at he
    exact ⟨j₀, hj₀, hid, he.symm⟩
  · left
    rw [if_neg (by simp [hid])] at he
    rw [← he]
    exact ⟨hj₀, hid⟩

/-- The most recently created analysis of a document: `analyses` rows are in
creation order, so it is the last row of the `by_document` slice (what the UI
reads as the head of `listAnalyses`, which returns this slice newest first). -/
def latestAnalysis (t : List (Nat × Analysis)) (documentId : Nat) :
    Option (Nat × Analysis) :=
  (t.filter (fun p => p.2.documentId == documentId)).getLast?

theorem latestAnalysis_mem {t : List (Nat × Analysis)} {documentId : Nat}
    {p : Nat × Analysis} (h : latestAnalysis t documentId = some p) :
    p ∈ t ∧ p.2.documentId = documentId := by
  have hm := List.mem_of_mem_getLast? h
  have := List.mem_filter.mp hm
  exact ⟨this.1, by simpa using this.2⟩

theorem latestAnalysis_append_hit (t : List (Nat × Analysis)) (n : Nat)
    (a : Analysis) (documentId : Nat) (h : a.documentId = documentId) :
    latestAnalysis (t ++ [(n, a)]) documentId = some (n, a) := by
  unfold latestAnalysis
  rw [List.filter_append]
  simp only [List.filter_cons, List.filter_nil]
  rw [if_pos (by simp [h])]
  exact List.getLast?_concat _

theorem latestAnalysis_append_miss (t : List (Nat × Analysis)) (n : Nat)
    (a : Analysis) (documentId : Nat) (h : ¬ a.documentId = documentId) :
    latestAnalysis (t ++ [(n, a)]) documentId = latestAnalysis t documentId := by
  unfold latestAnalysis
  rw [List.filter_append]
  simp only [List.filter_cons, List.filter_nil]
  rw [if_neg (by simp [h])]
  simp

theorem latestAnalysis_patchRow (t : List (Nat × Analysis)) (i : Nat)
    (f : Analysis → Analysis) (documentId : Nat)
    (hf : ∀ b, (f b).documentId = b.documentId) :
    latestAnalysis (patchRow t i f) documentId =
      (latestAnalysis t documentId).map
        (fun p => if p.1 = i then (p.1, f p.2) else p) := by
  unfold latestAnalysis patchRow
  rw [List.filter_map]
  have hpred : ((fun p : Nat × Analysis => p.2.documentId == documentId) ∘
      fun p : Nat × Analysis => if p.1 == i then (p.1, f p.2) else p) =
      fun p : Nat × Analysis => p.2.documentId == documentId := by
    funext p
    by_cases h : p.1 = i <;> simp [Function.comp, h, hf]
  rw [hpred, List.getLast?_map]
  cases hl : (t.filter (fun p => p.2.documentId == documentId)).getLast? with
  | none => rfl
  | some q =>
    by_cases hq : q.1 = i <;> simp [hq]

theorem latestAnalysis_filter (t : List (Nat × Analysis)) (P : Nat × Analysis → Bool)
    (documentId : Nat)
    (h : ∀ q ∈ t, q.2.documentId = documentId → P q = true) :
    latestAnalysis (t.filter P) documentId = latestAnalysis t documentId := by
  unfold latestAnalysis
  rw [List.filter_filter]
  congr 1
  apply List.filter_congr
  intro a ha
  by_cases hQ : a.2.documentId = documentId
  · simp [hQ, h a ha hQ]
  · simp [hQ]

/-! ## The system's step relation

A step is one atomic unit of the system: one public mutation, one blob-store
event, or one of the (at most two) mutations run by a scheduled
`analyzeDocument` action.  `analyzeDocument` is straight-line: it first runs
`updateAnalysisStatus … processing` and then exactly one of
`completeAnalysis` / `failAnalysis`; the job's `phase` field sequences these
two steps and makes each run at most once (Convex runs a scheduled action
exactly once and never re-runs its mutations). -/

/-- Which operation a step performs. -/
inductive OpLabel
  | practiceOp
  | blobUpload
  | blobRemove
  | createDoc
  | runLyraOp
  | deleteDoc
  | jobStart
  | jobFinish
deriving DecidableEq

/-- One atomic step of the system, parametrised by an extra admission
condition `c` on the job steps (used below to restrict executions to
single-flight ones; `fun _ _ => True` places no restriction). -/
inductive StepC (c : DB → Nat → Prop) : OpLabel → DB → DB → Prop
  | practiceOp (s s' : DB) (auth : Option User) (now practiceId : Nat)
      (practice : Option Practice)
      (h : getOrCreatePractice s auth now = .ok (s', practiceId, practice)) :
      StepC c .practiceOp s s'
  | blobUpload (s s' : DB) (url : String)
      (h : s' = { s with storage := s.storage ++ [(s.nextId, url)]
                         nextId := s.nextId + 1 }) :
      StepC c .blobUpload s s'
  | blobRemove (s s' : DB) (storageId : Nat)
      (h : s' = { s with storage := delRow s.storage storageId }) :
      StepC c .blobRemove s s'
  | createDoc (s s' : DB) (auth : Option User) (storageId : Nat)
      (filename contentType : String) (sizeBytes : Int) (now documentId : Nat)
      (h : createDocument s auth storageId filename contentType sizeBytes now =
        .ok (s', documentId)) :
      StepC c .createDoc s s'
  | runLyraOp (s s' : DB) (auth : Option User) (documentId now analysisId : Nat)
      (h : runLyra s auth documentId now = .ok (s', analysisId)) :
      StepC c .runLyraOp s s'
  | deleteDoc (s s' : DB) (auth : Option User) (documentId : Nat)
      (effects : List DeleteEffect)
      (h : deleteDocument s auth documentId = .ok (s', effects)) :
      StepC c .deleteDoc s s'
  | jobStart (s s₁ s' : DB) (j : Job) (now : Nat)
      (hj : j ∈ s.scheduled) (hph : j.phase = .pending) (hc : c s j.analysisId)
      (h : updateAnalysisStatus s j.analysisId .processing now = .ok s₁)
      (h2 : s' = { s₁ with scheduled := setJobPhase s₁.scheduled j.analysisId .started }) :
      StepC c .jobStart s s'
  | jobFinish (s s₁ s' : DB) (j : Job) (now : Nat)
      (modelResult : Except String InsurancePlanReport)
      (hj : j ∈ s.scheduled) (hph : j.phase = .started) (hc : c s j.analysisId)
      (h : analyzeFinish s j.analysisId j.contentType now modelResult = .ok s₁)
      (h2 : s' = { s₁ with scheduled := setJobPhase s₁.scheduled j.analysisId .done }) :
      StepC c .jobFinish s s'

/-- The unrestricted admission condition. -/
def anyFlight : DB → Nat → Prop := fun _ _ => True

/-- A step of the system. -/
def Step : OpLabel → DB → DB → Prop := StepC anyFlight

/-- Single-flight admission: a job step may only touch an analysis that is
(still) the most recently created analysis of its document — the discipline
the presentation layer enforces by disabling re-runs while an analysis is in
flight. -/
def isLatestOrGone (s : DB) (analysisId : Nat) : Prop :=
  match getRow s.analyses analysisId with
  | none => True
  | some a => latestAnalysis s.analyses a.documentId = some (analysisId, a)

instance (s : DB) (analysisId : Nat) : Decidable (isLatestOrGone s analysisId) :=
  match h : getRow s.analyses analysisId with
  | none => .isTrue (by simp [isLatestOrGone, h])
  | some a =>
    if he : latestAnalysis s.analyses a.documentId = some (analysisId, a) then
      .isTrue (by simp [isLatestOrGone, h, he])
    else
      .isFalse (by simp [isLatestOrGone, h, he])

/-- A step of a single-flight execution. -/
def StepSF : OpLabel → DB → DB → Prop := StepC isLatestOrGone

/-- States reachable from the empty store under condition `c`. -/
inductive ReachC (c : DB → Nat → Prop) : DB → Prop
  | init : ReachC c initDB
  | step {s s' : DB} {l : OpLabel} (hr : ReachC c s) (hs : StepC c l s s') : ReachC c s'

/-- Reachable states of the system. -/
def Reach : DB → Prop := ReachC anyFlight

/-- Reachable states of single-flight executions. -/
def ReachSF : DB → Prop := ReachC isLatestOrGone

theorem StepC_mono {c : DB → Nat → Prop} {l : OpLabel} {s s' : DB}
    (h : StepC c l s s') : Step l s s' := by
  cases h with
  | practiceOp s s' auth now practiceId practice h =>
    exact .practiceOp s s' auth now practiceId practice h
  | blobUpload s s' url h => exact .blobUpload s s' url h
  | blobRemove s s' storageId h => exact .blobRemove s s' storageId h
  | createDoc s s' auth storageId filename contentType sizeBytes now documentId h =>
    exact .createDoc s s' auth storageId filename contentType sizeBytes now documentId h
  | runLyraOp s s' auth documentId now analysisId h =>
    exact .runLyraOp s s' auth documentId now analysisId h
  | deleteDoc s s' auth documentId effects h =>
    exact .deleteDoc s s' auth documentId effects h
  | jobStart s s₁ s' j now hj hph hc h h2 =>
    exact .jobStart s s₁ s' j now hj hph trivial h h2
  | jobFinish s s₁ s' j now modelResult hj hph hc h h2 =>
    exact .jobFinish s s₁ s' j now modelResult hj hph trivial h h2

theorem ReachSF_mono {s : DB} (h : ReachSF s) : Reach s := by
  induction h with
  | init => exact .init
  | step hr hs ih => exact .step ih (StepC_mono hs)

/-! ## The inductive invariant -/

/-- Health of a scheduled job's program counter relative to its analysis row:
before the action has run, the analysis (if it still exists) is the fresh
`queued` row created alongside the job; after the `processing` mutation and
before the terminal one, it is `processing`; in both cases `report` and
`errorMessage` are still unset.  (A `done` job constrains nothing.) -/
def jobOkB (t : List (Nat × Analysis)) (j : Job) : Bool :=
  match getRow t j.analysisId, j.phase with
  | some a, .pending =>
    a.status == .queued && a.report == none && a.errorMessage == none
  | some a, .started =>
    a.status == .processing && a.report == none && a.errorMessage == none
  | _, _ => true

/-- The inductive invariant of reachable states:
ids are bounded by the allocator and creation-ordered, every analysis's
parent document exists, `report`/`errorMessage` presence matches the status,
and every scheduled job is in a healthy phase. -/
def DBInv (s : DB) : Prop :=
  (∀ k ∈ keysOf s.practices, k < s.nextId) ∧
  (∀ k ∈ keysOf s.practiceMembers, k < s.nextId) ∧
  (∀ k ∈ keysOf s.documents, k < s.nextId) ∧
  (∀ k ∈ keysOf s.analyses, k < s.nextId) ∧
  (∀ k ∈ keysOf s.storage, k < s.nextId) ∧
  (∀ j ∈ s.scheduled, j.analysisId < s.nextId) ∧
  ((keysOf s.analyses).Pairwise (· < ·)) ∧
  ((keysOf s.documents).Nodup) ∧
  ((s.scheduled.map Job.analysisId).Nodup) ∧
  (∀ p ∈ s.analyses, (getRow s.documents p.2.documentId).isSome = true) ∧
  (∀ p ∈ s.analyses,
    ((p.2.report.isSome = true) ↔ p.2.status = .complete) ∧
    ((p.2.errorMessage.isSome = true) ↔ p.2.status = .error)) ∧
  (∀ j ∈ s.scheduled, jobOkB s.analyses j = true)

instance (s : DB) : Decidable (DBInv s) := by
  unfold DBInv
  infer_instance

theorem DBInv_initDB : DBInv initDB := by decide

/-! ## Shape lemmas: explicit success characterisations of each operation -/

theorem updateAnalysisStatus_none {s : DB} {analysisId : Nat} {status : AStatus}
    {now : Nat} (h : getRow s.analyses analysisId = none) :
    updateAnalysisStatus s analysisId status now = .ok s := by
  simp [updateAnalysisStatus, h]

theorem updateAnalysisStatus_some {s : DB} {analysisId : Nat} {status : AStatus}
    {now : Nat} {a : Analysis} {d : Document}
    (ha : getRow s.analyses analysisId = some a)
    (hd : getRow s.documents a.documentId = some d) :
    updateAnalysisStatus s analysisId status now = .ok
      { s with
        analyses := patchRow s.analyses analysisId
          (fun b => { b with status := status, updatedAt := now })
        documents := patchRow s.documents a.documentId
          (fun x => { x with status := status.toDoc, updatedAt := now }) } := by
  simp [updateAnalysisStatus, patchAnalysis, patchDoc, ha, hd]

theorem completeAnalysis_none {s : DB} {analysisId : Nat}
    {report : InsurancePlanReport} {now : Nat}
    (h : getRow s.analyses analysisId = none) :
    completeAnalysis s analysisId report now = .ok s := by
  simp [completeAnalysis, h]

theorem completeAnalysis_some {s : DB} {analysisId : Nat}
    {report : InsurancePlanReport} {now : Nat} {a : Analysis} {d : Document}
    (ha : getRow s.analyses analysisId = some a)
    (hd : getRow s.documents a.documentId = some d) :
    completeAnalysis s analysisId report now = .ok
      { s with
        analyses := patchRow s.analyses analysisId
          (fun b => { b with status := .complete, report := some report, updatedAt := now })
        documents := patchRow s.documents a.documentId
          (fun x => { x with status := .complete, updatedAt := now }) } := by
  simp [completeAnalysis, patchAnalysis, patchDoc, ha, hd]

theorem failAnalysis_none {s : DB} {analysisId : Nat} {errorMessage : String}
    {now : Nat} (h : getRow s.analyses analysisId = none) :
    failAnalysis s analysisId errorMessage now = .ok s := by
  simp [failAnalysis, h]

theorem failAnalysis_some {s : DB} {analysisId : Nat} {errorMessage : String}
    {now : Nat} {a : Analysis} {d : Document}
    (ha : getRow s.analyses analysisId = some a)
    (hd : getRow s.documents a.documentId = some d) :
    failAnalysis s analysisId errorMessage now = .ok
      { s with
        analyses := patchRow s.analyses analysisId
          (fun b => { b with status := .error, errorMessage := some errorMessage
                             updatedAt := now })
        documents := patchRow s.documents a.documentId
          (fun x => { x with status := .error, updatedAt := now }) } := by
  simp [failAnalysis, patchAnalysis, patchDoc, ha, hd]

/-- The error message the `analyzeFinish` half of `analyzeDocument` hands to
`failAnalysis` when the media classification or the model call fails. -/
def failureMsg (contentType : String)
    (modelResult : Except String InsurancePlanReport) : Option String :=
  match mediaTypeFor contentType with
  | none => some ("Unsupported content type: " ++ contentType)
  | some _ =>
    match modelResult with
    | .error e => some e
    | .ok _ => none

theorem failureMsg_unsupported {contentType : String}
    {modelResult : Except String InsurancePlanReport}
    (hmt : mediaTypeFor contentType = none) :
    failureMsg contentType modelResult =
      some ("Unsupported content type: " ++ contentType) := by
  unfold failureMsg
  rw [hmt]

theorem failureMsg_modelError {contentType m e : String}
    (hmt : mediaTypeFor contentType = some m) :
    failureMsg contentType (.error e) = some e := by
  unfold failureMsg
  rw [hmt]

theorem analyzeAttempt_unsupported {s : DB} {analysisId : Nat} {contentType : String}
    {now : Nat} {modelResult : Except String InsurancePlanReport}
    (hmt : mediaTypeFor contentType = none) :
    analyzeAttempt s analysisId contentType now modelResult =
      .error ("Unsupported content type: " ++ contentType) := by
  unfold analyzeAttempt
  rw [hmt]

theorem analyzeAttempt_modelError {s : DB} {analysisId : Nat} {contentType : String}
    {now : Nat} {m e : String} (hmt : mediaTypeFor contentType = some m) :
    analyzeAttempt s analysisId contentType now (.error e) = .error e := by
  unfold analyzeAttempt
  rw [hmt]

theorem analyzeAttempt_ok {s : DB} {analysisId : Nat} {contentType : String}
    {now : Nat} {m : String} {r : InsurancePlanReport}
    (hmt : mediaTypeFor contentType = some m) :
    analyzeAttempt s analysisId contentType now (.ok r) =
      completeAnalysis s analysisId r now := by
  unfold analyzeAttempt
  rw [hmt]

/-- Every run of the `try` block either fails with the `failureMsg` of its
inputs or is exactly a `completeAnalysis` call. -/
theorem analyzeAttempt_spec (s : DB) (analysisId : Nat) (contentType : String)
    (now : Nat) (modelResult : Except String InsurancePlanReport) :
    (∃ msg, failureMsg contentType modelResult = some msg ∧
       analyzeAttempt s analysisId contentType now modelResult = .error msg) ∨
    (∃ m r, mediaTypeFor contentType = some m ∧ modelResult = .ok r ∧
       analyzeAttempt s analysisId contentType now modelResult =
         completeAnalysis s analysisId r now) := by
  cases hmt : mediaTypeFor contentType with
  | none =>
    exact .inl ⟨_, failureMsg_unsupported hmt, analyzeAttempt_unsupported hmt⟩
  | some m =>
    cases modelResult with
    | error e =>
      exact .inl ⟨e, failureMsg_modelError hmt, analyzeAttempt_modelError hmt⟩
    | ok r => exact .inr ⟨m, r, rfl, rfl, analyzeAttempt_ok hmt⟩

theorem analyzeFinish_of_attempt_ok {s s₁ : DB} {analysisId : Nat}
    {contentType : String} {now : Nat}
    {modelResult : Except String InsurancePlanReport}
    (h : analyzeAttempt s analysisId contentType now modelResult = .ok s₁) :
    analyzeFinish s analysisId contentType now modelResult = .ok s₁ := by
  unfold analyzeFinish
  rw [h]

theorem analyzeFinish_of_attempt_error {s : DB} {analysisId : Nat}
    {contentType : String} {now : Nat}
    {modelResult : Except String InsurancePlanReport} {msg : String}
    (h : analyzeAttempt s analysisId contentType now modelResult = .error msg) :
    analyzeFinish s analysisId contentType now modelResult =
      failAnalysis s analysisId msg now := by
  unfold analyzeFinish
  rw [h]

/-- The post-state of a successful `runLyra`. -/
def runLyraPost (s : DB) (userId : String) (documentId now : Nat)
    (document : Document) (documentUrl : String) : DB :=
  { s with
    analyses := s.analyses ++ [(s.nextId,
      { documentId := documentId, practiceId := document.practiceId
        status := .queued, report := none, errorMessage := none
        createdBy := userId, createdAt := now, updatedAt := now })]
    documents := patchRow s.documents documentId
      (fun d => { d with status := .queued, updatedAt := now })
    scheduled := s.scheduled ++
      [{ analysisId := s.nextId, documentUrl := documentUrl
         contentType := document.contentType, phase := .pending }]
    nextId := s.nextId + 1 }

theorem runLyra_eq {s : DB} {user : User} {documentId now : Nat}
    {document : Document} {documentUrl : String}
    (hdoc : getRow s.documents documentId = some document)
    (hacc : verifyPracticeAccess s document.practiceId user.id = .ok ())
    (hurl : getRow s.storage document.storageId = some documentUrl) :
    runLyra s (some user) documentId now =
      .ok (runLyraPost s user.id documentId now document documentUrl, s.nextId) := by
  simp [runLyra, requireAuth, patchDoc, hdoc, hacc, hurl, runLyraPost]

theorem runLyra_ok {s s' : DB} {auth : Option User} {documentId now analysisId : Nat}
    (h : runLyra s auth documentId now = .ok (s', analysisId)) :
    ∃ user document documentUrl,
      auth = some user ∧
      getRow s.documents documentId = some document ∧
      verifyPracticeAccess s document.practiceId user.id = .ok () ∧
      getRow s.storage document.storageId = some documentUrl ∧
      analysisId = s.nextId ∧
      s' = runLyraPost s user.id documentId now document documentUrl := by
  cases auth with
  | none => simp [runLyra, requireAuth] at h
  | some user =>
    cases hdoc : getRow s.documents documentId with
    | none => simp [runLyra, requireAuth, hdoc] at h
    | some document =>
      cases hacc : verifyPracticeAccess s document.practiceId user.id with
      | error e => simp [runLyra, requireAuth, hdoc, hacc] at h
      | ok u =>
        cases hurl : getRow s.storage document.storageId with
        | none => simp [runLyra, requireAuth, patchDoc, hdoc, hacc, hurl] at h
        | some documentUrl =>
          have := @runLyra_eq s user documentId now document documentUrl hdoc
            (by cases u; exact hacc) hurl
          rw [this] at h
          injection h with h
          injection h with h1 h2
          exact ⟨user, document, documentUrl, rfl, rfl, (by cases u; exact hacc),
            hurl, h2.symm, h1.symm⟩

theorem createDocument_eq {s : DB} {user : User} {practiceId : Nat}
    {storageId : Nat} {filename contentType : String} {sizeBytes : Int} {now : Nat}
    (hm : requirePracticeMembership s user.id = .ok practiceId) :
    createDocument s (some user) storageId filename contentType sizeBytes now =
      .ok ({ s with
        documents := s.documents ++ [(s.nextId,
          { practiceId := practiceId, storageId := storageId, filename := filename
            contentType := contentType, sizeBytes := sizeBytes, status := .uploaded
            uploadedBy := user.id, createdAt := now, updatedAt := now })]
        nextId := s.nextId + 1 }, s.nextId) := by
  simp [createDocument, requireAuth, hm]

theorem createDocument_ok {s s' : DB} {auth : Option User} {storageId : Nat}
    {filename contentType : String} {sizeBytes : Int} {now documentId : Nat}
    (h : createDocument s auth storageId filename contentType sizeBytes now =
      .ok (s', documentId)) :
    ∃ user practiceId,
      auth = some user ∧
      requirePracticeMembership s user.id = .ok practiceId ∧
      documentId = s.nextId ∧
      s' = { s with
        documents := s.documents ++ [(s.nextId,
          { practiceId := practiceId, storageId := storageId, filename := filename
            contentType := contentType, sizeBytes := sizeBytes, status := .uploaded
            uploadedBy := user.id, createdAt := now, updatedAt := now })]
        nextId := s.nextId + 1 } := by
  cases auth with
  | none => simp [createDocument, requireAuth] at h
  | some user =>
    cases hm : requirePracticeMembership s user.id with
    | error e => simp [createDocument, requireAuth, hm] at h
    | ok practiceId =>
      rw [createDocument_eq hm] at h
      injection h with h
      injection h with h1 h2
      exact ⟨user, practiceId, rfl, hm, h2.symm, h1.symm⟩

/-- The post-state of a successful `deleteDocument`: the document's analyses
(the rows the `by_document` collect returned), the blob and the document row
are gone. -/
def deleteDocumentPost (s : DB) (documentId : Nat) (document : Document) : DB :=
  { s with
    analyses := s.analyses.filter (fun p =>
      !(((s.analyses.filter (fun q => q.2.documentId == documentId)).map
          (fun q => q.1)).contains p.1))
    storage := delRow s.storage document.storageId
    documents := delRow s.documents documentId }

theorem deleteDocument_eq {s : DB} {user : User} {documentId : Nat}
    {document : Document}
    (hdoc : getRow s.documents documentId = some document)
    (hacc : verifyPracticeAccess s document.practiceId user.id = .ok ()) :
    deleteDocument s (some user) documentId =
      .ok (deleteDocumentPost s documentId document,
        (s.analyses.filter (fun q => q.2.documentId == documentId)).map
          (fun q => DeleteEffect.analysisRow q.1) ++
        [DeleteEffect.blob document.storageId, DeleteEffect.documentRow documentId]) := by
  simp only [deleteDocument, requireAuth, hdoc, hacc, deleteDocumentPost, foldl_delRow]

theorem deleteDocument_ok {s s' : DB} {auth : Option User} {documentId : Nat}
    {effects : List DeleteEffect}
    (h : deleteDocument s auth documentId = .ok (s', effects)) :
    ∃ user document,
      auth = some user ∧
      getRow s.documents documentId = some document ∧
      verifyPracticeAccess s document.practiceId user.id = .ok () ∧
      s' = deleteDocumentPost s documentId document ∧
      effects = (s.analyses.filter (fun q => q.2.documentId == documentId)).map
          (fun q => DeleteEffect.analysisRow q.1) ++
        [DeleteEffect.blob document.storageId, DeleteEffect.documentRow documentId] := by
  cases auth with
  | none => simp [deleteDocument, requireAuth] at h
  | some user =>
    cases hdoc : getRow s.documents documentId with
    | none => simp [deleteDocument, requireAuth, hdoc] at h
    | some document =>
      cases hacc : verifyPracticeAccess s document.practiceId user.id with
      | error e => simp [deleteDocument, requireAuth, hdoc, hacc] at h
      | ok u =>
        rw [deleteDocument_eq hdoc (by cases u; exact hacc)] at h
        injection h with h
        injection h with h1 h2
        exact ⟨user, document, rfl, rfl, (by cases u; exact hacc), h1.symm, h2.symm⟩

/-- The post-state of the creating branch of `getOrCreatePractice`. -/
def practiceCreatedState (s : DB) (user : User) (now : Nat) : DB :=
  { s with
    practices := s.practices ++ [(s.nextId,
      { name := practiceNameFor user, ownerId := user.id
        createdAt := now, updatedAt := now })]
    practiceMembers := s.practiceMembers ++ [(s.nextId + 1,
      { practiceId := s.nextId, userId := user.id, role := .owner, createdAt := now })]
    nextId := s.nextId + 2 }

theorem getOrCreatePractice_existing {s : DB} {user : User} {now : Nat}
    {m : Nat × PracticeMember} {practice : Practice}
    (hfind : s.practiceMembers.find? (fun p => p.2.userId == user.id) = some m)
    (hp : getRow s.practices m.2.practiceId = some practice) :
    getOrCreatePractice s (some user) now = .ok (s, m.2.practiceId, some practice) := by
  simp [getOrCreatePractice, requireAuth, hfind, hp]

theorem getOrCreatePractice_fresh {s : DB} {user : User} {now : Nat}
    (hfind : s.practiceMembers.find? (fun p => p.2.userId == user.id) = none) :
    getOrCreatePractice s (some user) now = .ok (practiceCreatedState s user now,
      s.nextId, getRow (practiceCreatedState s user now).practices s.nextId) := by
  simp [getOrCreatePractice, requireAuth, hfind, practiceCreatedState]

theorem getOrCreatePractice_ok {s s' : DB} {auth : Option User}
    {now practiceId : Nat} {practice : Option Practice}
    (h : getOrCreatePractice s auth now = .ok (s', practiceId, practice)) :
    ∃ user, auth = some user ∧
      (s' = s ∨
        (s.practiceMembers.find? (fun p => p.2.userId == user.id) = none ∧
          s' = practiceCreatedState s user now)) := by
  cases auth with
  | none => simp [getOrCreatePractice, requireAuth] at h
  | some user =>
    cases hfind : s.practiceMembers.find? (fun p => p.2.userId == user.id) with
    | none =>
      rw [getOrCreatePractice_fresh hfind] at h
      injection h with h
      injection h with h1 h2
      exact ⟨user, rfl, .inr ⟨hfind, h1.symm⟩⟩
    | some m =>
      cases hp : getRow s.practices m.2.practiceId with
      | none => simp [getOrCreatePractice, requireAuth, hfind, hp] at h
      | some practice =>
        rw [getOrCreatePractice_existing hfind hp] at h
        injection h with h
        injection h with h1 h2
        exact ⟨user, rfl, .inl h1.symm⟩

theorem getRow_single_ne {n k : Nat} {a : α} (h : ¬ n = k) :
    getRow [(n, a)] k = none := by
  rw [getRow_cons, if_neg h]
  rfl

theorem getRow_append_single_ne {t : List (Nat × α)} {n k : Nat} {a : α}
    (h : ¬ n = k) : getRow (t ++ [(n, a)]) k = getRow t k := by
  rw [getRow_append, getRow_single_ne h]
  cases getRow t k <;> rfl

theorem isSome_getRow_patchRow {t : List (Nat × α)} {i k : Nat} {f : α → α}
    (h : (getRow t k).isSome = true) : (getRow (patchRow t i f) k).isSome = true := by
  rw [getRow_patchRow]
  by_cases hik : i = k
  · rw [if_pos hik]
    cases hg : getRow t k with
    | none => rw [hg] at h; simp at h
    | some a => rfl
  · rw [if_neg hik]
    exact h

theorem jobOkB_of_none {t : List (Nat × Analysis)} {j : Job}
    (h : getRow t j.analysisId = none) : jobOkB t j = true := by
  unfold jobOkB
  rw [h]

theorem jobOkB_of_done {t : List (Nat × Analysis)} {j : Job} (h : j.phase = .done) :
    jobOkB t j = true := by
  unfold jobOkB
  rw [h]
  cases getRow t j.analysisId <;> rfl

theorem jobOkB_congr {t t' : List (Nat × Analysis)} {j : Job}
    (h : getRow t' j.analysisId = getRow t j.analysisId) :
    jobOkB t' j = jobOkB t j := by
  unfold jobOkB
  rw [h]

theorem jobOkB_pending {t : List (Nat × Analysis)} {j : Job} {a : Analysis}
    (hget : getRow t j.analysisId = some a) (hph : j.phase = .pending)
    (hj : jobOkB t j = true) :
    a.status = .queued ∧ a.report = none ∧ a.errorMessage = none := by
  unfold jobOkB at hj
  rw [hget, hph] at hj
  simpa [and_assoc] using hj

theorem jobOkB_started {t : List (Nat × Analysis)} {j : Job} {a : Analysis}
    (hget : getRow t j.analysisId = some a) (hph : j.phase = .started)
    (hj : jobOkB t j = true) :
    a.status = .processing ∧ a.report = none ∧ a.errorMessage = none := by
  unfold jobOkB at hj
  rw [hget, hph] at hj
  simpa [and_assoc] using hj

theorem jobOkB_intro_pending {t : List (Nat × Analysis)} {j : Job} {a : Analysis}
    (hget : getRow t j.analysisId = some a) (hph : j.phase = .pending)
    (h1 : a.status = .queued) (h2 : a.report = none) (h3 : a.errorMessage = none) :
    jobOkB t j = true := by
  unfold jobOkB
  rw [hget, hph]
  simp [h1, h2, h3]

theorem jobOkB_intro_started {t : List (Nat × Analysis)} {j : Job} {a : Analysis}
    (hget : getRow t j.analysisId = some a) (hph : j.phase = .started)
    (h1 : a.status = .processing) (h2 : a.report = none) (h3 : a.errorMessage = none) :
    jobOkB t j = true := by
  unfold jobOkB
  rw [hget, hph]
  simp [h1, h2, h3]

/-! ## Preservation of the invariant by every step -/

theorem DBInv_practiceCreated {s : DB} {user : User} {now : Nat} (hinv : DBInv s) :
    DBInv (practiceCreatedState s user now) := by
  obtain ⟨hbPr, hbPm, hbDoc, hbAn, hbSt, hbJob, hSorted, hDocNd, hJobNd,
    hParent, hRep, hJobOk⟩ := hinv
  dsimp only [practiceCreatedState]
  refine ⟨?_, ?_, ?_, ?_, ?_, ?_, hSorted, hDocNd, hJobNd, hParent, hRep, ?_⟩ <;>
    dsimp only
  · intro k hk
    rw [keysOf_append] at hk
    rcases List.mem_append.mp hk with h | h
    · exact Nat.lt_of_lt_of_le (hbPr k h) (by omega)
    · simp [keysOf] at h
      omega
  · intro k hk
    rw [keysOf_append] at hk
    rcases List.mem_append.mp hk with h | h
    · exact Nat.lt_of_lt_of_le (hbPm k h) (by omega)
    · simp [keysOf] at h
      omega
  · exact fun k hk => Nat.lt_of_lt_of_le (hbDoc k hk) (by omega)
  · exact fun k hk => Nat.lt_of_lt_of_le (hbAn k hk) (by omega)
  · exact fun k hk => Nat.lt_of_lt_of_le (hbSt k hk) (by omega)
  · exact fun j hj => Nat.lt_of_lt_of_le (hbJob j hj) (by omega)
  · intro j hj
    rw [jobOkB_congr (t := s.analyses) rfl]
    exact hJobOk j hj

theorem DBInv_blobUpload {s : DB} {url : String} (hinv : DBInv s) :
    DBInv { s with storage := s.storage ++ [(s.nextId, url)]
                   nextId := s.nextId + 1 } := by
  obtain ⟨hbPr, hbPm, hbDoc, hbAn, hbSt, hbJob, hSorted, hDocNd, hJobNd,
    hParent, hRep, hJobOk⟩ := hinv
  refine ⟨?_, ?_, ?_, ?_, ?_, ?_, hSorted, hDocNd, hJobNd, hParent, hRep, ?_⟩ <;>
    dsimp only
  · exact fun k hk => Nat.lt_of_lt_of_le (hbPr k hk) (by omega)
  · exact fun k hk => Nat.lt_of_lt_of_le (hbPm k hk) (by omega)
  · exact fun k hk => Nat.lt_of_lt_of_le (hbDoc k hk) (by omega)
  · exact fun k hk => Nat.lt_of_lt_of_le (hbAn k hk) (by omega)
  · intro k hk
    rw [keysOf_append] at hk
    rcases List.mem_append.mp hk with h | h
    · exact Nat.lt_of_lt_of_le (hbSt k h) (by omega)
    · simp [keysOf] at h
      omega
  · exact fun j hj => Nat.lt_of_lt_of_le (hbJob j hj) (by omega)
  · intro j hj
    rw [jobOkB_congr (t := s.analyses) rfl]
    exact hJobOk j hj

theorem DBInv_blobRemove {s : DB} {storageId : Nat} (hinv : DBInv s) :
    DBInv { s with storage := delRow s.storage storageId } := by
  obtain ⟨hbPr, hbPm, hbDoc, hbAn, hbSt, hbJob, hSorted, hDocNd, hJobNd,
    hParent, hRep, hJobOk⟩ := hinv
  refine ⟨hbPr, hbPm, hbDoc, hbAn, ?_, hbJob, hSorted, hDocNd, hJobNd,
    hParent, hRep, ?_⟩ <;> dsimp only
  · intro k hk
    refine hbSt k ?_
    exact ((sublist_delRow s.storage storageId).map _).subset hk
  · intro j hj
    rw [jobOkB_congr (t := s.analyses) rfl]
    exact hJobOk j hj

theorem DBInv_createDoc {s : DB} {practiceId storageId : Nat}
    {filename contentType : String} {sizeBytes : Int} {userId : String} {now : Nat}
    (hinv : DBInv s) :
    DBInv { s with
      documents := s.documents ++ [(s.nextId,
        { practiceId := practiceId, storageId := storageId, filename := filename
          contentType := contentType, sizeBytes := sizeBytes, status := .uploaded
          uploadedBy := userId, createdAt := now, updatedAt := now })]
      nextId := s.nextId + 1 } := by
  obtain ⟨hbPr, hbPm, hbDoc, hbAn, hbSt, hbJob, hSorted, hDocNd, hJobNd,
    hParent, hRep, hJobOk⟩ := hinv
  refine ⟨?_, ?_, ?_, ?_, ?_, ?_, hSorted, ?_, hJobNd, ?_, hRep, ?_⟩ <;> dsimp only
  · exact fun k hk => Nat.lt_of_lt_of_le (hbPr k hk) (by omega)
  · exact fun k hk => Nat.lt_of_lt_of_le (hbPm k hk) (by omega)
  · intro k hk
    rw [keysOf_append] at hk
    rcases List.mem_append.mp hk with h | h
    · exact Nat.lt_of_lt_of_le (hbDoc k h) (by omega)
    · simp [keysOf] at h
      omega
  · exact fun k hk => Nat.lt_of_lt_of_le (hbAn k hk) (by omega)
  · exact fun k hk => Nat.lt_of_lt_of_le (hbSt k hk) (by omega)
  · exact fun j hj => Nat.lt_of_lt_of_le (hbJob j hj) (by omega)
  · rw [keysOf_append]
    refine List.Nodup.append hDocNd (List.nodup_singleton _) ?_
    intro k hk hk2
    simp [keysOf] at hk2
    exact absurd (hbDoc k hk) (by omega)
  · intro p hp
    have hp' : p ∈ s.analyses := hp
    have := hParent p hp'
    cases hg : getRow s.documents p.2.documentId with
    | none => rw [hg] at this; simp at this
    | some d =>
      rw [getRow_append_old _ _ _ _ hg]
      rfl
  · intro j hj
    rw [jobOkB_congr (t := s.analyses) rfl]
    exact hJobOk j hj

theorem contains_of_mem {l : List Nat} {x : Nat} (h : x ∈ l) : l.contains x = true := by
  simpa using h

theorem mem_of_contains {l : List Nat} {x : Nat} (h : l.contains x = true) : x ∈ l := by
  simpa using h

theorem DBInv_runLyra {s : DB} {userId : String} {documentId now : Nat}
    {document : Document} {documentUrl : String}
    (hinv : DBInv s) (hdoc : getRow s.documents documentId = some document) :
    DBInv (runLyraPost s userId documentId now document documentUrl) := by
  obtain ⟨hbPr, hbPm, hbDoc, hbAn, hbSt, hbJob, hSorted, hDocNd, hJobNd,
    hParent, hRep, hJobOk⟩ := hinv
  dsimp only [runLyraPost]
  refine ⟨?_, ?_, ?_, ?_, ?_, ?_, ?_, ?_, ?_, ?_, ?_, ?_⟩ <;> dsimp only
  · exact fun k hk => Nat.lt_of_lt_of_le (hbPr k hk) (by omega)
  · exact fun k hk => Nat.lt_of_lt_of_le (hbPm k hk) (by omega)
  · intro k hk
    rw [keysOf_patchRow] at hk
    exact Nat.lt_of_lt_of_le (hbDoc k hk) (by omega)
  · intro k hk
    rw [keysOf_append] at hk
    rcases List.mem_append.mp hk with h | h
    · exact Nat.lt_of_lt_of_le (hbAn k h) (by omega)
    · simp [keysOf] at h
      omega
  · exact fun k hk => Nat.lt_of_lt_of_le (hbSt k hk) (by omega)
  · intro j hj
    rcases List.mem_append.mp hj with h | h
    · exact Nat.lt_of_lt_of_le (hbJob j h) (by omega)
    · simp at h
      subst h
      dsimp only
      omega
  · rw [keysOf_append, List.pairwise_append]
    refine ⟨hSorted, List.pairwise_singleton _ _, ?_⟩
    intro a ha b hb
    simp [keysOf] at hb
    rw [hb]
    exact hbAn a ha
  · rw [keysOf_patchRow]
    exact hDocNd
  · rw [List.map_append]
    refine List.Nodup.append hJobNd (by simp) ?_
    intro x hx hx2
    simp at hx2
    rcases List.mem_map.mp hx with ⟨j, hj, he⟩
    have := hbJob j hj
    omega
  · intro p hp
    rcases List.mem_append.mp hp with h | h
    · exact isSome_getRow_patchRow (hParent p h)
    · simp at h
      subst h
      dsimp only
      rw [getRow_patchRow, if_pos rfl, hdoc]
      rfl
  · intro p hp
    rcases List.mem_append.mp hp with h | h
    · exact hRep p h
    · simp at h
      subst h
      dsimp only
      simp
  · intro j hj
    rcases List.mem_append.mp hj with h | h
    · have hlt := hbJob j h
      rw [jobOkB_congr (t := s.analyses) (getRow_append_single_ne (by omega))]
      exact hJobOk j h
    · simp at h
      subst h
      exact jobOkB_intro_pending (getRow_append_fresh _ _ _ hbAn) rfl rfl rfl rfl

theorem DBInv_deleteDoc {s : DB} {documentId : Nat} {document : Document}
    (hinv : DBInv s) :
    DBInv (deleteDocumentPost s documentId document) := by
  obtain ⟨hbPr, hbPm, hbDoc, hbAn, hbSt, hbJob, hSorted, hDocNd, hJobNd,
    hParent, hRep, hJobOk⟩ := hinv
  have hNd : (keysOf s.analyses).Nodup := hSorted.imp Nat.ne_of_lt
  dsimp only [deleteDocumentPost]
  refine ⟨hbPr, hbPm, ?_, ?_, ?_, hbJob, ?_, ?_, hJobNd, ?_, ?_, ?_⟩ <;> dsimp only
  · intro k hk
    exact hbDoc k (((sublist_delRow _ _).map _).subset hk)
  · intro k hk
    exact hbAn k (((List.filter_sublist _).map _).subset hk)
  · intro k hk
    exact hbSt k (((sublist_delRow _ _).map _).subset hk)
  · exact hSorted.sublist ((List.filter_sublist _).map _)
  · exact hDocNd.sublist ((sublist_delRow _ _).map _)
  · intro p hp
    have hmem := List.mem_filter.mp hp
    have hne : ¬ p.2.documentId = documentId := by
      intro he
      have hpin : p ∈ s.analyses.filter (fun q => q.2.documentId == documentId) :=
        List.mem_filter.mpr ⟨hmem.1, by simp [he]⟩
      have hcon : ((s.analyses.filter (fun q => q.2.documentId == documentId)).map
          (fun q => q.1)).contains p.1 = true :=
        contains_of_mem (List.mem_map.mpr ⟨p, hpin, rfl⟩)
      exact absurd hmem.2 (by rw [hcon]; simp)
    rw [getRow_delRow, if_neg (fun he => hne he.symm)]
    exact hParent p hmem.1
  · intro p hp
    exact hRep p (List.mem_filter.mp hp).1
  · intro j hj
    cases hg : getRow (s.analyses.filter (fun p =>
        !(((s.analyses.filter (fun q => q.2.documentId == documentId)).map
            (fun q => q.1)).contains p.1))) j.analysisId with
    | none => exact jobOkB_of_none hg
    | some a =>
      have hmem := List.mem_filter.mp (getRow_mem hg)
      have hga : getRow s.analyses j.analysisId = some a := mem_getRow hNd hmem.1
      rw [jobOkB_congr (t := s.analyses) (by rw [hg, hga])]
      exact hJobOk j hj

theorem DBInv_setPhaseOnly {s : DB} {analysisId : Nat} {newPhase : JobPhase}
    (hinv : DBInv s)
    (hnew : ∀ j₀ ∈ s.scheduled, j₀.analysisId = analysisId →
        jobOkB s.analyses { j₀ with phase := newPhase } = true) :
    DBInv { s with scheduled := setJobPhase s.scheduled analysisId newPhase } := by
  obtain ⟨hbPr, hbPm, hbDoc, hbAn, hbSt, hbJob, hSorted, hDocNd, hJobNd,
    hParent, hRep, hJobOk⟩ := hinv
  refine ⟨hbPr, hbPm, hbDoc, hbAn, hbSt, ?_, hSorted, hDocNd, ?_, hParent,
    hRep, ?_⟩ <;> dsimp only
  · intro j' hj'
    rcases mem_setJobPhase hj' with ⟨hmem, _⟩ | ⟨j₀, hj₀, _, he⟩
    · exact hbJob j' hmem
    · rw [he]
      exact hbJob j₀ hj₀
  · rw [jobIds_setJobPhase]
    exact hJobNd
  · intro j' hj'
    rcases mem_setJobPhase hj' with ⟨hmem, _⟩ | ⟨j₀, hj₀, heid, he⟩
    · exact hJobOk j' hmem
    · rw [he]
      exact hnew j₀ hj₀ heid

theorem DBInv_jobPatch {s : DB} {j : Job} {a : Analysis}
    {f : Analysis → Analysis} {g : Document → Document} {newPhase : JobPhase}
    (hinv : DBInv s) (hj : j ∈ s.scheduled)
    (hga : getRow s.analyses j.analysisId = some a)
    (hf : ∀ b, (f b).documentId = b.documentId)
    (hrep : (((f a).report.isSome = true) ↔ (f a).status = .complete) ∧
            (((f a).errorMessage.isSome = true) ↔ (f a).status = .error))
    (hnew : ∀ j₀ ∈ s.scheduled, j₀.analysisId = j.analysisId →
        jobOkB (patchRow s.analyses j.analysisId f)
          { j₀ with phase := newPhase } = true) :
    DBInv { s with
      analyses := patchRow s.analyses j.analysisId f
      documents := patchRow s.documents a.documentId g
      scheduled := setJobPhase s.scheduled j.analysisId newPhase } := by
  obtain ⟨hbPr, hbPm, hbDoc, hbAn, hbSt, hbJob, hSorted, hDocNd, hJobNd,
    hParent, hRep, hJobOk⟩ := hinv
  have hNd : (keysOf s.analyses).Nodup := hSorted.imp Nat.ne_of_lt
  refine ⟨hbPr, hbPm, ?_, ?_, hbSt, ?_, ?_, ?_, ?_, ?_, ?_, ?_⟩ <;> dsimp only
  · intro k hk
    rw [keysOf_patchRow] at hk
    exact hbDoc k hk
  · intro k hk
    rw [keysOf_patchRow] at hk
    exact hbAn k hk
  · intro j' hj'
    rcases mem_setJobPhase hj' with ⟨hmem, _⟩ | ⟨j₀, hj₀, _, he⟩
    · exact hbJob j' hmem
    · rw [he]
      exact hbJob j₀ hj₀
  · rw [keysOf_patchRow]
    exact hSorted
  · rw [keysOf_patchRow]
    exact hDocNd
  · rw [jobIds_setJobPhase]
    exact hJobNd
  · intro p hp
    rcases mem_patchRow hp with ⟨h, -⟩ | ⟨b, hb, he⟩
    · exact isSome_getRow_patchRow (hParent p h)
    · rw [he]
      dsimp only
      rw [getRow_patchRow]
      rw [hf b]
      by_cases hdk : a.documentId = b.documentId
      · rw [if_pos hdk]
        cases hg : getRow s.documents b.documentId with
        | none =>
          have := hParent (j.analysisId, b) hb
          rw [hg] at this
          simp at this
        | some d => rfl
      · rw [if_neg hdk]
        exact hParent (j.analysisId, b) hb
  · intro p hp
    rcases mem_patchRow hp with ⟨h, -⟩ | ⟨b, hb, he⟩
    · exact hRep p h
    · have hba : b = a := by
        have := mem_getRow hNd hb
        rw [hga] at this
        injection this with h2
        exact h2.symm
      subst hba
      rw [he]
      exact hrep
  · intro j' hj'
    rcases mem_setJobPhase hj' with ⟨hmem, hne⟩ | ⟨j₀, hj₀, heid, he⟩
    · rw [jobOkB_congr (t := s.analyses) (by
        rw [getRow_patchRow, if_neg (fun h2 => hne h2.symm)])]
      exact hJobOk j' hmem
    · rw [he]
      exact hnew j₀ hj₀ heid

theorem DBInv.jobOk {s : DB} (h : DBInv s) :
    ∀ j ∈ s.scheduled, jobOkB s.analyses j = true :=
  h.2.2.2.2.2.2.2.2.2.2.2

theorem DBInv.parent {s : DB} (h : DBInv s) :
    ∀ p ∈ s.analyses, (getRow s.documents p.2.documentId).isSome = true :=
  h.2.2.2.2.2.2.2.2.2.1

theorem DBInv.repIff {s : DB} (h : DBInv s) :
    ∀ p ∈ s.analyses,
      ((p.2.report.isSome = true) ↔ p.2.status = .complete) ∧
      ((p.2.errorMessage.isSome = true) ↔ p.2.status = .error) :=
  h.2.2.2.2.2.2.2.2.2.2.1

theorem DBInv.aNodup {s : DB} (h : DBInv s) : (keysOf s.analyses).Nodup :=
  h.2.2.2.2.2.2.1.imp Nat.ne_of_lt

theorem DBInv.parentDoc {s : DB} (h : DBInv s) {analysisId : Nat} {a : Analysis}
    (hga : getRow s.analyses analysisId = some a) :
    ∃ d, getRow s.documents a.documentId = some d := by
  have hp := h.parent (analysisId, a) (getRow_mem hga)
  cases hg : getRow s.documents a.documentId with
  | none => rw [hg] at hp; simp at hp
  | some d => exact ⟨d, rfl⟩

theorem DBInv_jobStart {s s₁ : DB} {j : Job} {now : Nat}
    (hinv : DBInv s) (hj : j ∈ s.scheduled) (hph : j.phase = .pending)
    (h : updateAnalysisStatus s j.analysisId .processing now = .ok s₁) :
    DBInv { s₁ with scheduled := setJobPhase s₁.scheduled j.analysisId .started } := by
  cases hga : getRow s.analyses j.analysisId with
  | none =>
    rw [updateAnalysisStatus_none hga] at h
    injection h with h
    subst h
    exact DBInv_setPhaseOnly hinv (fun j₀ hj₀ heid =>
      jobOkB_of_none (by dsimp only; rw [heid]; exact hga))
  | some a =>
    obtain ⟨d, hd⟩ := hinv.parentDoc hga
    rw [updateAnalysisStatus_some hga hd] at h
    injection h with h
    subst h
    have hpend := jobOkB_pending hga hph (hinv.jobOk j hj)
    exact DBInv_jobPatch
      (f := fun b => { b with status := .processing, updatedAt := now })
      (g := fun x => { x with status := AStatus.processing.toDoc, updatedAt := now })
      hinv hj hga (fun b => rfl)
      (by simp [hpend.2.1, hpend.2.2])
      (fun j₀ hj₀ heid => jobOkB_intro_started
        (a := { a with status := .processing, updatedAt := now })
        (by dsimp only; rw [heid, getRow_patchRow, if_pos rfl, hga]; rfl)
        rfl rfl hpend.2.1 hpend.2.2)

theorem DBInv_jobFinish {s s₁ : DB} {j : Job} {now : Nat}
    {modelResult : Except String InsurancePlanReport}
    (hinv : DBInv s) (hj : j ∈ s.scheduled) (hph : j.phase = .started)
    (h : analyzeFinish s j.analysisId j.contentType now modelResult = .ok s₁) :
    DBInv { s₁ with scheduled := setJobPhase s₁.scheduled j.analysisId .done } := by
  rcases analyzeAttempt_spec s j.analysisId j.contentType now modelResult with
    ⟨msg, hmsg, hat⟩ | ⟨m, r, hmt, hmr, hat⟩
  · rw [analyzeFinish_of_attempt_error hat] at h
    cases hga : getRow s.analyses j.analysisId with
    | none =>
      rw [failAnalysis_none hga] at h
      injection h with h
      subst h
      exact DBInv_setPhaseOnly hinv (fun j₀ hj₀ heid => jobOkB_of_done rfl)
    | some a =>
      obtain ⟨d, hd⟩ := hinv.parentDoc hga
      rw [failAnalysis_some hga hd] at h
      injection h with h
      subst h
      have hst := jobOkB_started hga hph (hinv.jobOk j hj)
      exact DBInv_jobPatch
        (f := fun b => { b with status := .error, errorMessage := some msg
                                updatedAt := now })
        (g := fun x => { x with status := .error, updatedAt := now })
        hinv hj hga (fun b => rfl)
        (by simp [hst.2.1])
        (fun j₀ hj₀ heid => jobOkB_of_done rfl)
  · cases hga : getRow s.analyses j.analysisId with
    | none =>
      rw [analyzeFinish_of_attempt_ok
        (by rw [hat]; exact completeAnalysis_none hga)] at h
      injection h with h
      subst h
      exact DBInv_setPhaseOnly hinv (fun j₀ hj₀ heid => jobOkB_of_done rfl)
    | some a =>
      obtain ⟨d, hd⟩ := hinv.parentDoc hga
      rw [analyzeFinish_of_attempt_ok
        (by rw [hat]; exact completeAnalysis_some hga hd)] at h
      injection h with h
      subst h
      have hst := jobOkB_started hga hph (hinv.jobOk j hj)
      exact DBInv_jobPatch
        (f := fun b => { b with status := .complete, report := some r
                                updatedAt := now })
        (g := fun x => { x with status := .complete, updatedAt := now })
        hinv hj hga (fun b => rfl)
        (by simp [hst.2.2])
        (fun j₀ hj₀ heid => jobOkB_of_done rfl)

/-- Every step of the system preserves the invariant (for any admission
condition on job steps). -/
theorem DBInv_step {c : DB → Nat → Prop} {l : OpLabel} {s s' : DB}
    (hinv : DBInv s) (hs : StepC c l s s') : DBInv s' := by
  cases hs with
  | practiceOp s s' auth now practiceId practice h =>
    rcases getOrCreatePractice_ok h with ⟨user, -, h2 | ⟨-, h2⟩⟩
    · rw [h2]; exact hinv
    · rw [h2]; exact DBInv_practiceCreated hinv
  | blobUpload s s' url h =>
    rw [h]; exact DBInv_blobUpload hinv
  | blobRemove s s' storageId h =>
    rw [h]; exact DBInv_blobRemove hinv
  | createDoc s s' auth storageId filename contentType sizeBytes now documentId h =>
    rcases createDocument_ok h with ⟨user, practiceId, -, -, -, h2⟩
    rw [h2]; exact DBInv_createDoc hinv
  | runLyraOp s s' auth documentId now analysisId h =>
    rcases runLyra_ok h with ⟨user, document, documentUrl, -, hdoc, -, -, -, h2⟩
    rw [h2]; exact DBInv_runLyra hinv hdoc
  | deleteDoc s s' auth documentId effects h =>
    rcases deleteDocument_ok h with ⟨user, document, -, -, -, h2, -⟩
    rw [h2]; exact DBInv_deleteDoc hinv
  | jobStart s s₁ s' j now hj hph hc h h2 =>
    rw [h2]; exact DBInv_jobStart hinv hj hph h
  | jobFinish s s₁ s' j now modelResult hj hph hc h h2 =>
    rw [h2]; exact DBInv_jobFinish hinv hj hph h

/-- Every reachable state satisfies the invariant. -/
theorem DBInv_reach {c : DB → Nat → Prop} {s : DB} (h : ReachC c s) : DBInv s := by
  induction h with
  | init => exact DBInv_initDB
  | step hr hs ih => exact DBInv_step ih hs

/-! ## The document/latest-analysis synchronisation invariant (single-flight) -/

/-- Whether one document's status agrees with its most recently created
analysis (trivially true when it has no analysis). -/
def docSyncB (t : List (Nat × Analysis)) (d : Nat × Document) : Bool :=
  match latestAnalysis t d.1 with
  | none => true
  | some p => d.2.status == p.2.status.toDoc

/-- Executable check of the spec's lockstep property: every document's status
equals the status of its most recently created analysis, once one exists. -/
def syncB (s : DB) : Bool :=
  s.documents.all (docSyncB s.analyses)

/-- Propositional form of `syncB`. -/
def Sync (s : DB) : Prop :=
  ∀ d ∈ s.documents, ∀ p, latestAnalysis s.analyses d.1 = some p →
    d.2.status = p.2.status.toDoc

theorem docSyncB_some {t : List (Nat × Analysis)} {d : Nat × Document}
    {p : Nat × Analysis} (hp : latestAnalysis t d.1 = some p) :
    docSyncB t d = (d.2.status == p.2.status.toDoc) := by
  unfold docSyncB
  rw [hp]

theorem docSyncB_none {t : List (Nat × Analysis)} {d : Nat × Document}
    (hp : latestAnalysis t d.1 = none) : docSyncB t d = true := by
  unfold docSyncB
  rw [hp]

theorem syncB_iff {s : DB} : syncB s = true ↔ Sync s := by
  unfold syncB Sync
  rw [List.all_eq_true]
  constructor
  · intro h d hd p hp
    have h2 := h d hd
    rw [docSyncB_some hp] at h2
    simpa using h2
  · intro h d hd
    cases hp : latestAnalysis s.analyses d.1 with
    | none => exact docSyncB_none hp
    | some p =>
      rw [docSyncB_some hp]
      simpa using h d hd p hp

theorem Sync_congr {s s' : DB} (hd : s'.documents = s.documents)
    (ha : s'.analyses = s.analyses) (h : Sync s) : Sync s' := by
  unfold Sync at *
  rw [hd, ha]
  exact h

theorem Sync_pairPatch {s : DB} {analysisId : Nat} {a : Analysis}
    {f : Analysis → Analysis} {g : Document → Document}
    (hinv : DBInv s) (hsync : Sync s)
    (hga : getRow s.analyses analysisId = some a)
    (hlat : latestAnalysis s.analyses a.documentId = some (analysisId, a))
    (hf : ∀ b, (f b).documentId = b.documentId)
    (hg : ∀ x, (g x).status = (f a).status.toDoc) :
    Sync { s with analyses := patchRow s.analyses analysisId f
                  documents := patchRow s.documents a.documentId g } := by
  intro d hd p hp
  dsimp only at hd hp ⊢
  rw [latestAnalysis_patchRow _ _ _ _ hf] at hp
  rcases mem_patchRow hd with ⟨hdm, hdne⟩ | ⟨x, hxm, hde⟩
  · -- an untouched document row: its key differs from `a.documentId`
    cases hl : latestAnalysis s.analyses d.1 with
    | none => rw [hl] at hp; simp at hp
    | some p₀ =>
      rw [hl] at hp
      injection hp with hp
      have hmem := latestAnalysis_mem hl
      have hne : ¬ p₀.1 = analysisId := by
        intro he
        have hgr : getRow s.analyses p₀.1 = some p₀.2 := by
          rw [← p₀.eta] at hmem
          exact mem_getRow hinv.aNodup hmem.1
        rw [he, hga] at hgr
        injection hgr with hgr
        exact hdne (by rw [← hmem.2, ← hgr])
      rw [← hp]
      dsimp only
      rw [if_neg hne]
      exact hsync d hdm p₀ hl
  · -- the patched document row for `a.documentId`
    have hdid : d.1 = a.documentId := by rw [hde]
    rw [hdid, hlat] at hp
    injection hp with hp
    rw [hde, ← hp]
    dsimp only
    rw [if_pos rfl]
    exact hg x

theorem DBInv.docBound {s : DB} (h : DBInv s) :
    ∀ k ∈ keysOf s.documents, k < s.nextId :=
  h.2.2.1

theorem isLatestOrGone_some {s : DB} {analysisId : Nat} {a : Analysis}
    (hc : isLatestOrGone s analysisId)
    (hga : getRow s.analyses analysisId = some a) :
    latestAnalysis s.analyses a.documentId = some (analysisId, a) := by
  unfold isLatestOrGone at hc
  rw [hga] at hc
  exact hc

/-- In a single-flight execution every step preserves the lockstep between a
document's status and its most recently created analysis. -/
theorem Sync_stepSF {l : OpLabel} {s s' : DB} (hinv : DBInv s) (hsync : Sync s)
    (hs : StepSF l s s') : Sync s' := by
  cases hs with
  | practiceOp s s' auth now practiceId practice h =>
    rcases getOrCreatePractice_ok h with ⟨user, -, h2 | ⟨-, h2⟩⟩
    · rw [h2]; exact hsync
    · rw [h2]
      exact Sync_congr rfl rfl hsync
  | blobUpload s s' url h => rw [h]; exact Sync_congr rfl rfl hsync
  | blobRemove s s' storageId h => rw [h]; exact Sync_congr rfl rfl hsync
  | createDoc s s' auth storageId filename contentType sizeBytes now documentId h =>
    rcases createDocument_ok h with ⟨user, practiceId, -, -, -, h2⟩
    rw [h2]
    intro d hd p hp
    dsimp only at hd hp ⊢
    rcases List.mem_append.mp hd with hdm | hdm
    · exact hsync d hdm p hp
    · simp at hdm
      subst hdm
      dsimp only at hp
      have hmem := latestAnalysis_mem hp
      have hpar := hinv.parent p hmem.1
      rw [hmem.2] at hpar
      cases hg : getRow s.documents s.nextId with
      | none => rw [hg] at hpar; simp at hpar
      | some x =>
        have := hinv.docBound s.nextId
          (List.mem_map.mpr ⟨(s.nextId, x), getRow_mem hg, rfl⟩)
        omega
  | runLyraOp s s' auth documentId now analysisId h =>
    rcases runLyra_ok h with ⟨user, document, documentUrl, -, hdoc, -, -, -, h2⟩
    rw [h2]
    unfold runLyraPost
    intro d hd p hp
    dsimp only at hd hp ⊢
    rcases mem_patchRow hd with ⟨hdm, hdne⟩ | ⟨x, hxm, hde⟩
    · rw [latestAnalysis_append_miss _ _ _ _ (by dsimp only; exact fun he => hdne he.symm)] at hp
      exact hsync d hdm p hp
    · have hdid : d.1 = documentId := by rw [hde]
      rw [hdid, latestAnalysis_append_hit _ _ _ _ rfl] at hp
      injection hp with hp
      rw [hde, ← hp]
      rfl
  | deleteDoc s s' auth documentId effects h =>
    rcases deleteDocument_ok h with ⟨user, document, -, -, -, h2, -⟩
    rw [h2]
    unfold deleteDocumentPost
    intro d hd p hp
    dsimp only at hd hp ⊢
    have hdm := List.mem_filter.mp hd
    have hdne : ¬ d.1 = documentId := by
      have := hdm.2
      simp at this
      exact this
    rw [latestAnalysis_filter _ _ _ ?_] at hp
    · exact hsync d hdm.1 p hp
    · intro q hq hqd
      cases hcon : ((s.analyses.filter (fun r => r.2.documentId == documentId)).map
          (fun r => r.1)).contains q.1 with
      | false => simp [hcon]
      | true =>
        exfalso
        rcases List.mem_map.mp (mem_of_contains hcon) with ⟨q', hq', he⟩
        have hq'm := List.mem_filter.mp hq'
        have : q' = q := by
          apply List.inj_on_of_nodup_map (f := fun p : Nat × Analysis => p.1)
            hinv.aNodup hq'm.1 hq he
        rw [this] at hq'm
        have : q.2.documentId = documentId := by simpa using hq'm.2
        exact hdne (by rw [← hqd, this])
  | jobStart s s₁ s' j now hj hph hc h h2 =>
    cases hga : getRow s.analyses j.analysisId with
    | none =>
      rw [updateAnalysisStatus_none hga] at h
      injection h with h
      subst h
      rw [h2]
      exact Sync_congr rfl rfl hsync
    | some a =>
      obtain ⟨d, hd⟩ := hinv.parentDoc hga
      rw [updateAnalysisStatus_some hga hd] at h
      injection h with h
      subst h
      rw [h2]
      refine Sync_congr rfl rfl (Sync_pairPatch
        (f := fun b => { b with status := .processing, updatedAt := now })
        (g := fun x => { x with status := AStatus.processing.toDoc, updatedAt := now })
        hinv hsync hga (isLatestOrGone_some hc hga) (fun b => rfl) (fun x => rfl))
  | jobFinish s s₁ s' j now modelResult hj hph hc h h2 =>
    rcases analyzeAttempt_spec s j.analysisId j.contentType now modelResult with
      ⟨msg, hmsg, hat⟩ | ⟨m, r, hmt, hmr, hat⟩
    · rw [analyzeFinish_of_attempt_error hat] at h
      cases hga : getRow s.analyses j.analysisId with
      | none =>
        rw [failAnalysis_none hga] at h
        injection h with h
        subst h
        rw [h2]
        exact Sync_congr rfl rfl hsync
      | some a =>
        obtain ⟨d, hd⟩ := hinv.parentDoc hga
        rw [failAnalysis_some hga hd] at h
        injection h with h
        subst h
        rw [h2]
        refine Sync_congr rfl rfl (Sync_pairPatch
          (f := fun b => { b with status := .error, errorMessage := some msg
                                  updatedAt := now })
          (g := fun x => { x with status := .error, updatedAt := now })
          hinv hsync hga (isLatestOrGone_some hc hga) (fun b => rfl) (fun x => rfl))
    · cases hga : getRow s.analyses j.analysisId with
      | none =>
        rw [analyzeFinish_of_attempt_ok
          (by rw [hat]; exact completeAnalysis_none hga)] at h
        injection h with h
        subst h
        rw [h2]
        exact Sync_congr rfl rfl hsync
      | some a =>
        obtain ⟨d, hd⟩ := hinv.parentDoc hga
        rw [analyzeFinish_of_attempt_ok
          (by rw [hat]; exact completeAnalysis_some hga hd)] at h
        injection h with h
        subst h
        rw [h2]
        refine Sync_congr rfl rfl (Sync_pairPatch
          (f := fun b => { b with status := .complete, report := some r
                                  updatedAt := now })
          (g := fun x => { x with status := .complete, updatedAt := now })
          hinv hsync hga (isLatestOrGone_some hc hga) (fun b => rfl) (fun x => rfl))

theorem Sync_initDB : Sync initDB := by
  intro d hd
  simp [initDB] at hd

/-- Every state of a single-flight execution satisfies the lockstep property. -/
theorem Sync_reachSF {s : DB} (h : ReachSF s) : Sync s := by
  induction h with
  | init => exact Sync_initDB
  | step hr hs ih => exact Sync_stepSF (DBInv_reach hr) ih hs

/-! ## Terminal statuses are stable -/

theorem updateAnalysisStatus_none_inv {s s₁ : DB} {analysisId : Nat}
    {status : AStatus} {now : Nat}
    (hga : getRow s.analyses analysisId = none)
    (h : updateAnalysisStatus s analysisId status now = .ok s₁) : s₁ = s := by
  have h3 : (Except.ok s : Except String DB) = .ok s₁ :=
    (updateAnalysisStatus_none hga).symm.trans h
  injection h3 with h3
  exact h3.symm

theorem updateAnalysisStatus_some_inv {s s₁ : DB} {analysisId : Nat}
    {status : AStatus} {now : Nat} {a : Analysis} {d : Document}
    (ha : getRow s.analyses analysisId = some a)
    (hd : getRow s.documents a.documentId = some d)
    (h : updateAnalysisStatus s analysisId status now = .ok s₁) :
    s₁ = { s with
      analyses := patchRow s.analyses analysisId
        (fun b => { b with status := status, updatedAt := now })
      documents := patchRow s.documents a.documentId
        (fun x => { x with status := status.toDoc, updatedAt := now }) } := by
  have h3 := (updateAnalysisStatus_some ha hd).symm.trans h
  injection h3 with h3
  exact h3.symm

theorem failAnalysis_none_inv {s s₁ : DB} {analysisId : Nat}
    {errorMessage : String} {now : Nat}
    (hga : getRow s.analyses analysisId = none)
    (h : failAnalysis s analysisId errorMessage now = .ok s₁) : s₁ = s := by
  have h3 : (Except.ok s : Except String DB) = .ok s₁ :=
    (failAnalysis_none hga).symm.trans h
  injection h3 with h3
  exact h3.symm

theorem failAnalysis_some_inv {s s₁ : DB} {analysisId : Nat}
    {errorMessage : String} {now : Nat} {a : Analysis} {d : Document}
    (ha : getRow s.analyses analysisId = some a)
    (hd : getRow s.documents a.documentId = some d)
    (h : failAnalysis s analysisId errorMessage now = .ok s₁) :
    s₁ = { s with
      analyses := patchRow s.analyses analysisId
        (fun b => { b with status := .error, errorMessage := some errorMessage
                           updatedAt := now })
      documents := patchRow s.documents a.documentId
        (fun x => { x with status := .error, updatedAt := now }) } := by
  have h3 := (failAnalysis_some ha hd).symm.trans h
  injection h3 with h3
  exact h3.symm

theorem completeAnalysis_none_inv {s s₁ : DB} {analysisId : Nat}
    {report : InsurancePlanReport} {now : Nat}
    (hga : getRow s.analyses analysisId = none)
    (h : completeAnalysis s analysisId report now = .ok s₁) : s₁ = s := by
  have h3 : (Except.ok s : Except String DB) = .ok s₁ :=
    (completeAnalysis_none hga).symm.trans h
  injection h3 with h3
  exact h3.symm

theorem completeAnalysis_some_inv {s s₁ : DB} {analysisId : Nat}
    {report : InsurancePlanReport} {now : Nat} {a : Analysis} {d : Document}
    (ha : getRow s.analyses analysisId = some a)
    (hd : getRow s.documents a.documentId = some d)
    (h : completeAnalysis s analysisId report now = .ok s₁) :
    s₁ = { s with
      analyses := patchRow s.analyses analysisId
        (fun b => { b with status := .complete, report := some report
                           updatedAt := now })
      documents := patchRow s.documents a.documentId
        (fun x => { x with status := .complete, updatedAt := now }) } := by
  have h3 := (completeAnalysis_some ha hd).symm.trans h
  injection h3 with h3
  exact h3.symm

/-- Inversion for the second half of `analyzeDocument`: either the analysis
row is gone and the state is untouched, or the analysis and its parent
document are patched to `error` (failure) or `complete` (model success). -/
theorem analyzeFinish_inv {s s₁ : DB} {analysisId : Nat} {contentType : String}
    {now : Nat} {modelResult : Except String InsurancePlanReport}
    (hinv : DBInv s)
    (h : analyzeFinish s analysisId contentType now modelResult = .ok s₁) :
    (getRow s.analyses analysisId = none ∧ s₁ = s) ∨
    (∃ a msg, getRow s.analyses analysisId = some a ∧
      failureMsg contentType modelResult = some msg ∧
      s₁ = { s with
        analyses := patchRow s.analyses analysisId
          (fun b => { b with status := .error, errorMessage := some msg
                             updatedAt := now })
        documents := patchRow s.documents a.documentId
          (fun x => { x with status := .error, updatedAt := now }) }) ∨
    (∃ a r, getRow s.analyses analysisId = some a ∧
      failureMsg contentType modelResult = none ∧ modelResult = .ok r ∧
      s₁ = { s with
        analyses := patchRow s.analyses analysisId
          (fun b => { b with status := .complete, report := some r
                             updatedAt := now })
        documents := patchRow s.documents a.documentId
          (fun x => { x with status := .complete, updatedAt := now }) }) := by
  rcases analyzeAttempt_spec s analysisId contentType now modelResult with
    ⟨msg, hmsg, hat⟩ | ⟨m, r, hmt, hmr, hat⟩
  · rw [analyzeFinish_of_attempt_error hat] at h
    cases hga : getRow s.analyses analysisId with
    | none => exact .inl ⟨rfl, failAnalysis_none_inv hga h⟩
    | some a =>
      obtain ⟨d, hd⟩ := hinv.parentDoc hga
      exact .inr (.inl ⟨a, msg, rfl, hmsg, failAnalysis_some_inv hga hd h⟩)
  · cases hga : getRow s.analyses analysisId with
    | none =>
      rw [analyzeFinish_of_attempt_ok
        (by rw [hat]; exact completeAnalysis_none hga)] at h
      injection h with h
      exact .inl ⟨rfl, h.symm⟩
    | some a =>
      obtain ⟨d, hd⟩ := hinv.parentDoc hga
      rw [analyzeFinish_of_attempt_ok
        (by rw [hat]; exact completeAnalysis_some hga hd)] at h
      injection h with h
      refine .inr (.inr ⟨a, r, rfl, ?_, hmr, h.symm⟩)
      subst hmr
      unfold failureMsg
      rw [hmt]

/-! ## Terminal statuses are stable -/

/-- No step mutates an analysis row that is already `complete` or `error`:
the row survives (unless deleted) completely unchanged. -/
theorem analysis_terminal_step {c : DB → Nat → Prop} {l : OpLabel} {s s' : DB}
    (hinv : DBInv s) (hs : StepC c l s s') {analysisId : Nat} {a a' : Analysis}
    (hga : getRow s.analyses analysisId = some a)
    (hterm : a.status = .complete ∨ a.status = .error)
    (hga' : getRow s'.analyses analysisId = some a') : a' = a := by
  have hterm_ne_q : ¬ a.status = .queued := by
    rcases hterm with h | h <;> rw [h] <;> simp
  have hterm_ne_p : ¬ a.status = .processing := by
    rcases hterm with h | h <;> rw [h] <;> simp
  cases hs with
  | practiceOp s s' auth now practiceId practice h =>
    rcases getOrCreatePractice_ok h with ⟨user, -, h2 | ⟨-, h2⟩⟩
    · subst h2
      rw [hga] at hga'
      injection hga' with hga'
      exact hga'.symm
    · subst h2
      dsimp only [practiceCreatedState] at hga'
      rw [hga] at hga'
      injection hga' with hga'
      exact hga'.symm
  | blobUpload s s' url h =>
    subst h
    dsimp only at hga'
    rw [hga] at hga'
    injection hga' with hga'
    exact hga'.symm
  | blobRemove s s' storageId h =>
    subst h
    dsimp only at hga'
    rw [hga] at hga'
    injection hga' with hga'
    exact hga'.symm
  | createDoc s s' auth storageId filename contentType sizeBytes now documentId h =>
    rcases createDocument_ok h with ⟨user, practiceId, -, -, -, h2⟩
    subst h2
    dsimp only at hga'
    rw [hga] at hga'
    injection hga' with hga'
    exact hga'.symm
  | runLyraOp s s' auth documentId now analysisId2 h =>
    rcases runLyra_ok h with ⟨user, document, documentUrl, -, hdoc, -, -, -, h2⟩
    subst h2
    dsimp only [runLyraPost] at hga'
    rw [getRow_append_old _ _ _ _ hga] at hga'
    injection hga' with hga'
    exact hga'.symm
  | deleteDoc s s' auth documentId effects h =>
    rcases deleteDocument_ok h with ⟨user, document, -, -, -, h2, -⟩
    subst h2
    dsimp only [deleteDocumentPost] at hga'
    have hmem := List.mem_filter.mp (getRow_mem hga')
    have := mem_getRow hinv.aNodup hmem.1
    rw [hga] at this
    injection this with this
    exact this.symm
  | jobStart s s₁ s' j now hj hph hc h h2 =>
    cases hga2 : getRow s.analyses j.analysisId with
    | none =>
      have hse := updateAnalysisStatus_none_inv hga2 h
      subst hse
      subst h2
      dsimp only at hga'
      rw [hga] at hga'
      injection hga' with hga'
      exact hga'.symm
    | some b =>
      have hb := jobOkB_pending hga2 hph (hinv.jobOk j hj)
      have hne : ¬ j.analysisId = analysisId := by
        intro he
        rw [he, hga] at hga2
        injection hga2 with hga2
        exact hterm_ne_q (by rw [hga2]; exact hb.1)
      obtain ⟨d, hd⟩ := hinv.parentDoc hga2
      have hse := updateAnalysisStatus_some_inv hga2 hd h
      subst hse
      subst h2
      dsimp only at hga'
      rw [getRow_patchRow, if_neg hne, hga] at hga'
      injection hga' with hga'
      exact hga'.symm
  | jobFinish s s₁ s' j now modelResult hj hph hc h h2 =>
    have hne : ∀ b, getRow s.analyses j.analysisId = some b →
        ¬ j.analysisId = analysisId := by
      intro b hb he
      have hbs := jobOkB_started hb hph (hinv.jobOk j hj)
      rw [he, hga] at hb
      injection hb with hb
      exact hterm_ne_p (by rw [hb]; exact hbs.1)
    rcases analyzeFinish_inv hinv h with
      ⟨hg0, hse⟩ | ⟨b, msg, hg0, -, hse⟩ | ⟨b, r, hg0, -, -, hse⟩
    · clear h
      subst hse
      subst h2
      dsimp only at hga'
      rw [hga] at hga'
      injection hga' with hga'
      exact hga'.symm
    · clear h
      subst hse
      subst h2
      dsimp only at hga'
      rw [getRow_patchRow, if_neg (hne b hg0), hga] at hga'
      injection hga' with hga'
      exact hga'.symm
    · clear h
      subst hse
      subst h2
      dsimp only at hga'
      rw [getRow_patchRow, if_neg (hne b hg0), hga] at hga'
      injection hga' with hga'
      exact hga'.symm

/-- In a single-flight execution, no step other than `runLyra` moves a
document's status away from `complete` or `error`: the row survives (unless
deleted) with its status unchanged. -/
theorem doc_terminal_stepSF {l : OpLabel} {s s' : DB}
    (hinv : DBInv s) (hsync : Sync s) (hs : StepSF l s s')
    (hl : ¬ l = .runLyraOp) {d : Nat} {doc doc' : Document}
    (hgd : getRow s.documents d = some doc)
    (hterm : doc.status = .complete ∨ doc.status = .error)
    (hgd' : getRow s'.documents d = some doc') : doc'.status = doc.status := by
  have hterm_ne_q : ¬ doc.status = .queued := by
    rcases hterm with h | h <;> rw [h] <;> simp
  have hterm_ne_p : ¬ doc.status = .processing := by
    rcases hterm with h | h <;> rw [h] <;> simp
  cases hs with
  | practiceOp s s' auth now practiceId practice h =>
    rcases getOrCreatePractice_ok h with ⟨user, -, h2 | ⟨-, h2⟩⟩
    · subst h2
      rw [hgd] at hgd'
      injection hgd' with hgd'
      rw [hgd']
    · subst h2
      dsimp only [practiceCreatedState] at hgd'
      rw [hgd] at hgd'
      injection hgd' with hgd'
      rw [hgd']
  | blobUpload s s' url h =>
    subst h
    dsimp only at hgd'
    rw [hgd] at hgd'
    injection hgd' with hgd'
    rw [hgd']
  | blobRemove s s' storageId h =>
    subst h
    dsimp only at hgd'
    rw [hgd] at hgd'
    injection hgd' with hgd'
    rw [hgd']
  | createDoc s s' auth storageId filename contentType sizeBytes now documentId h =>
    rcases createDocument_ok h with ⟨user, practiceId, -, -, -, h2⟩
    subst h2
    dsimp only at hgd'
    have hdk : d < s.nextId :=
      hinv.docBound d (List.mem_map.mpr ⟨(d, doc), getRow_mem hgd, rfl⟩)
    rw [getRow_append_single_ne (by omega), hgd] at hgd'
    injection hgd' with hgd'
    rw [hgd']
  | runLyraOp s s' auth documentId now analysisId h =>
    exact absurd rfl hl
  | deleteDoc s s' auth documentId effects h =>
    rcases deleteDocument_ok h with ⟨user, document, -, -, -, h2, -⟩
    subst h2
    dsimp only [deleteDocumentPost] at hgd'
    rw [getRow_delRow] at hgd'
    split at hgd'
    · cases hgd'
    · rw [hgd] at hgd'
      injection hgd' with hgd'
      rw [hgd']
  | jobStart s s₁ s' j now hj hph hc h h2 =>
    cases hga2 : getRow s.analyses j.analysisId with
    | none =>
      have hse := updateAnalysisStatus_none_inv hga2 h
      clear h
      subst hse
      subst h2
      dsimp only at hgd'
      rw [hgd] at hgd'
      injection hgd' with hgd'
      rw [hgd']
    | some a =>
      have hb := jobOkB_pending hga2 hph (hinv.jobOk j hj)
      have hlat := isLatestOrGone_some hc hga2
      obtain ⟨dd, hdd⟩ := hinv.parentDoc hga2
      have hse := updateAnalysisStatus_some_inv hga2 hdd h
      clear h
      subst hse
      subst h2
      dsimp only at hgd'
      by_cases hdid : a.documentId = d
      · exfalso
        subst hdid
        rw [hgd] at hdd
        injection hdd with hdd
        have := hsync (a.documentId, doc) (getRow_mem hgd) (j.analysisId, a) hlat
        dsimp only at this
        rw [hb.1] at this
        exact hterm_ne_q this
      · rw [getRow_patchRow, if_neg hdid, hgd] at hgd'
        injection hgd' with hgd'
        rw [hgd']
  | jobFinish s s₁ s' j now modelResult hj hph hc h h2 =>
    rcases analyzeFinish_inv hinv h with
      ⟨hg0, hse⟩ | ⟨b, msg, hg0, -, hse⟩ | ⟨b, r, hg0, -, -, hse⟩
    · clear h
      subst hse
      subst h2
      dsimp only at hgd'
      rw [hgd] at hgd'
      injection hgd' with hgd'
      rw [hgd']
    · have hb := jobOkB_started hg0 hph (hinv.jobOk j hj)
      have hlat := isLatestOrGone_some hc hg0
      clear h
      subst hse
      subst h2
      dsimp only at hgd'
      by_cases hdid : b.documentId = d
      · exfalso
        subst hdid
        have := hsync (b.documentId, doc) (getRow_mem hgd) (j.analysisId, b) hlat
        dsimp only at this
        rw [hb.1] at this
        exact hterm_ne_p this
      · rw [getRow_patchRow, if_neg hdid, hgd] at hgd'
        injection hgd' with hgd'
        rw [hgd']
    · have hb := jobOkB_started hg0 hph (hinv.jobOk j hj)
      have hlat := isLatestOrGone_some hc hg0
      clear h
      subst hse
      subst h2
      dsimp only at hgd'
      by_cases hdid : b.documentId = d
      · exfalso
        subst hdid
        have := hsync (b.documentId, doc) (getRow_mem hgd) (j.analysisId, b) hlat
        dsimp only at this
        rw [hb.1] at this
        exact hterm_ne_p this
      · rw [getRow_patchRow, if_neg hdid, hgd] at hgd'
        injection hgd' with hgd'
        rw [hgd']

/-! ## A concrete execution

A practice owner uploads a PDF, runs the analysis twice concurrently, the
first scheduled job fails at the model, and the second job then starts.
These states witness the reachable behaviours used below. -/

def uTest : User := { id := "u1", email := some "ann@clinic.test" }

def pracTest : Practice :=
  { name := "ann@clinic.test\x27s Practice", ownerId := "u1"
    createdAt := 100, updatedAt := 100 }

def memTest : PracticeMember :=
  { practiceId := 0, userId := "u1", role := .owner, createdAt := 100 }

def urlTest : String := "https://blob.test/plan.pdf"

def docTest : Document :=
  { practiceId := 0, storageId := 2, filename := "plan.pdf"
    contentType := "application/pdf", sizeBytes := 1048576, status := .uploaded
    uploadedBy := "u1", createdAt := 200, updatedAt := 200 }

/-- After `getOrCreatePractice` at t=100. -/
def s1 : DB :=
  { practices := [(0, pracTest)], practiceMembers := [(1, memTest)]
    documents := [], analyses := [], storage := [], scheduled := [], nextId := 2 }

/-- After the client uploads the blob. -/
def s2 : DB := { s1 with storage := [(2, urlTest)], nextId := 3 }

/-- After `createDocument` at t=200. -/
def s3 : DB := { s2 with documents := [(3, docTest)], nextId := 4 }

/-- After the first `runLyra` at t=300: analysis 4 queued, job scheduled. -/
def s4 : DB :=
  { s3 with
    documents := [(3, { docTest with status := .queued, updatedAt := 300 })]
    analyses := [(4, { documentId := 3, practiceId := 0, status := .queued
                       report := none, errorMessage := none, createdBy := "u1"
                       createdAt := 300, updatedAt := 300 })]
    scheduled := [{ analysisId := 4, documentUrl := urlTest
                    contentType := "application/pdf", phase := .pending }]
    nextId := 5 }

/-- After a second, concurrent `runLyra` at t=400: analysis 5 queued too. -/
def s5 : DB :=
  { s4 with
    documents := [(3, { docTest with status := .queued, updatedAt := 400 })]
    analyses := s4.analyses ++
      [(5, { documentId := 3, practiceId := 0, status := .queued
             report := none, errorMessage := none, createdBy := "u1"
             createdAt := 400, updatedAt := 400 })]
    scheduled := s4.scheduled ++
      [{ analysisId := 5, documentUrl := urlTest
         contentType := "application/pdf", phase := .pending }]
    nextId := 6 }

/-- Job 4 runs `updateAnalysisStatus … processing` at t=500 (state before the
phase bookkeeping). -/
def s6pre : DB :=
  { s5 with
    documents := [(3, { docTest with status := .processing, updatedAt := 500 })]
    analyses := [(4, { documentId := 3, practiceId := 0, status := .processing
                       report := none, errorMessage := none, createdBy := "u1"
                       createdAt := 300, updatedAt := 500 })] ++ s5.analyses.drop 1 }

def s6 : DB :=
  { s6pre with scheduled := setJobPhase s6pre.scheduled 4 .started }

/-- Job 4's model call fails; `failAnalysis` runs at t=600. -/
def s7pre : DB :=
  { s6 with
    documents := [(3, { docTest with status := .error, updatedAt := 600 })]
    analyses := [(4, { documentId := 3, practiceId := 0, status := .error
                       report := none, errorMessage := some "model unavailable"
                       createdBy := "u1", createdAt := 300, updatedAt := 600 })] ++
      s6.analyses.drop 1 }

def s7 : DB :=
  { s7pre with scheduled := setJobPhase s7pre.scheduled 4 .done }

/-- Job 5 then marks `processing` at t=700, dragging the document out of its
terminal `error` status. -/
def s8pre : DB :=
  { s7 with
    documents := [(3, { docTest with status := .processing, updatedAt := 700 })]
    analyses := s7.analyses.take 1 ++
      [(5, { documentId := 3, practiceId := 0, status := .processing
             report := none, errorMessage := none, createdBy := "u1"
             createdAt := 400, updatedAt := 700 })] }

def s8 : DB :=
  { s8pre with scheduled := setJobPhase s8pre.scheduled 5 .started }

theorem step_s0_s1 (c : DB → Nat → Prop) : StepC c .practiceOp initDB s1 :=
  .practiceOp initDB s1 (some uTest) 100 0 (some pracTest) (by decide)

theorem step_s1_s2 (c : DB → Nat → Prop) : StepC c .blobUpload s1 s2 :=
  .blobUpload s1 s2 urlTest (by decide)

theorem step_s2_s3 (c : DB → Nat → Prop) : StepC c .createDoc s2 s3 :=
  .createDoc s2 s3 (some uTest) 2 "plan.pdf" "application/pdf" 1048576 200 3
    (by decide)

theorem step_s3_s4 (c : DB → Nat → Prop) : StepC c .runLyraOp s3 s4 :=
  .runLyraOp s3 s4 (some uTest) 3 300 4 (by decide)

theorem step_s4_s5 (c : DB → Nat → Prop) : StepC c .runLyraOp s4 s5 :=
  .runLyraOp s4 s5 (some uTest) 3 400 5 (by decide)

theorem step_s5_s6 : Step .jobStart s5 s6 :=
  .jobStart s5 s6pre s6
    { analysisId := 4, documentUrl := urlTest
      contentType := "application/pdf", phase := .pending }
    500 (by decide) rfl trivial (by decide) (by decide)

theorem step_s6_s7 : Step .jobFinish s6 s7 :=
  .jobFinish s6 s7pre s7
    { analysisId := 4, documentUrl := urlTest
      contentType := "application/pdf", phase := .started }
    600 (.error "model unavailable") (by decide) rfl trivial (by decide) (by decide)

theorem step_s7_s8 : Step .jobStart s7 s8 :=
  .jobStart s7 s8pre s8
    { analysisId := 5, documentUrl := urlTest
      contentType := "application/pdf", phase := .pending }
    700 (by decide) rfl trivial (by decide) (by decide)

theorem reach_s3 : Reach s3 :=
  .step (.step (.step .init (step_s0_s1 _)) (step_s1_s2 _)) (step_s2_s3 _)

theorem reach_s5 : Reach s5 :=
  .step (.step reach_s3 (step_s3_s4 _)) (step_s4_s5 _)

theorem reach_s7 : Reach s7 :=
  .step (.step reach_s5 step_s5_s6) step_s6_s7

theorem reach_s8 : Reach s8 :=
  .step reach_s7 step_s7_s8

/-! A single-flight variant: only one analysis is ever in flight. -/

/-- Job 4 marks `processing` at t=500 directly from `s4` (no concurrent
second run). -/
def t5pre : DB :=
  { s4 with
    documents := [(3, { docTest with status := .processing, updatedAt := 500 })]
    analyses := [(4, { documentId := 3, practiceId := 0, status := .processing
                       report := none, errorMessage := none, createdBy := "u1"
                       createdAt := 300, updatedAt := 500 })] }

def t5 : DB :=
  { t5pre with scheduled := setJobPhase t5pre.scheduled 4 .started }

/-- Job 4 fails at the model at t=600. -/
def t6pre : DB :=
  { t5 with
    documents := [(3, { docTest with status := .error, updatedAt := 600 })]
    analyses := [(4, { documentId := 3, practiceId := 0, status := .error
                       report := none, errorMessage := some "model unavailable"
                       createdBy := "u1", createdAt := 300, updatedAt := 600 })] }

def t6 : DB :=
  { t6pre with scheduled := setJobPhase t6pre.scheduled 4 .done }

/-- An unrelated blob upload after the failure. -/
def t7 : DB :=
  { t6 with storage := t6.storage ++ [(5, "https://blob.test/extra.bin")]
            nextId := 6 }

theorem stepSF_s4_t5 : StepSF .jobStart s4 t5 :=
  .jobStart s4 t5pre t5
    { analysisId := 4, documentUrl := urlTest
      contentType := "application/pdf", phase := .pending }
    500 (by decide) rfl (by decide) (by decide) (by decide)

theorem stepSF_t5_t6 : StepSF .jobFinish t5 t6 :=
  .jobFinish t5 t6pre t6
    { analysisId := 4, documentUrl := urlTest
      contentType := "application/pdf", phase := .started }
    600 (.error "model unavailable") (by decide) rfl (by decide) (by decide)
    (by decide)

theorem stepSF_t6_t7 : StepSF .blobUpload t6 t7 :=
  .blobUpload t6 t7 "https://blob.test/extra.bin" (by decide)

theorem reachSF_s4 : ReachSF s4 :=
  .step (.step (.step (.step .init (step_s0_s1 _)) (step_s1_s2 _)) (step_s2_s3 _))
    (step_s3_s4 _)

theorem reachSF_t6 : ReachSF t6 :=
  .step (.step reachSF_s4 stepSF_s4_t5) stepSF_t5_t6

/-! ## The behaviour of `analyzeDocument` -/

theorem analyzeDocument_eq {s s₁ : DB} {analysisId : Nat}
    {documentUrl contentType : String} {now₁ now₂ : Nat}
    {modelResult : Except String InsurancePlanReport}
    (h1 : updateAnalysisStatus s analysisId .processing now₁ = .ok s₁) :
    analyzeDocument s analysisId documentUrl contentType now₁ now₂ modelResult =
      analyzeFinish s₁ analysisId contentType now₂ modelResult := by
  unfold analyzeDocument
  rw [h1]

/-- The full behaviour of the `analyzeDocument` action on a store satisfying
the invariant: it always completes without raising, and whenever its inputs
fail (unsupported media type or model failure) while the analysis row still
exists, the analysis and its parent document end in `error` with the failure
message recorded. -/
theorem analyzeDocument_spec (s : DB) (hinv : DBInv s) (analysisId : Nat)
    (documentUrl contentType : String) (now₁ now₂ : Nat)
    (modelResult : Except String InsurancePlanReport) :
    ∃ s', analyzeDocument s analysisId documentUrl contentType now₁ now₂
        modelResult = .ok s' ∧
      ∀ msg, failureMsg contentType modelResult = some msg →
        ∀ a, getRow s.analyses analysisId = some a →
          ∃ a' d', getRow s'.analyses analysisId = some a' ∧
            a'.status = .error ∧ a'.errorMessage = some msg ∧
            getRow s'.documents a.documentId = some d' ∧ d'.status = .error := by
  cases hga : getRow s.analyses analysisId with
  | none =>
    have h1 := @updateAnalysisStatus_none _ _ .processing now₁ hga
    refine ⟨?_, ?_, ?_⟩
    rotate_left
    · rw [analyzeDocument_eq h1]
      rcases analyzeAttempt_spec s analysisId contentType now₂ modelResult with
        ⟨msg, hmsg, hat⟩ | ⟨m, r, hmt, hmr, hat⟩
      · rw [analyzeFinish_of_attempt_error hat]
        exact failAnalysis_none hga
      · exact analyzeFinish_of_attempt_ok (by rw [hat]; exact completeAnalysis_none hga)
    · intro msg hmsg a hga2
      simp at hga2
  | some a =>
    obtain ⟨d, hd⟩ := hinv.parentDoc hga
    have h1 := @updateAnalysisStatus_some _ _ .processing now₁ _ _ hga hd
    -- the intermediate state after the `processing` mutation
    set s₁ : DB := { s with
      analyses := patchRow s.analyses analysisId
        (fun b => { b with status := .processing, updatedAt := now₁ })
      documents := patchRow s.documents a.documentId
        (fun x => { x with status := AStatus.processing.toDoc, updatedAt := now₁ }) }
      with hs₁
    have ha₁ : getRow s₁.analyses analysisId =
        some { a with status := .processing, updatedAt := now₁ } := by
      rw [hs₁]
      dsimp only
      rw [getRow_patchRow, if_pos rfl, hga]
      rfl
    have hd₁ : getRow s₁.documents a.documentId =
        some { d with status := AStatus.processing.toDoc, updatedAt := now₁ } := by
      rw [hs₁]
      dsimp only
      rw [getRow_patchRow, if_pos rfl, hd]
      rfl
    rcases analyzeAttempt_spec s₁ analysisId contentType now₂ modelResult with
      ⟨msg, hmsg, hat⟩ | ⟨m, r, hmt, hmr, hat⟩
    · refine ⟨?_, ?_, ?_⟩
      rotate_left
      · rw [analyzeDocument_eq h1, analyzeFinish_of_attempt_error hat]
        exact failAnalysis_some ha₁ hd₁
      · intro msg2 hmsg2 a2 hga2
        rw [hmsg] at hmsg2
        injection hmsg2 with hmsg2
        injection hga2 with hga2
        subst hmsg2
        subst hga2
        refine ⟨{ a with status := .error, errorMessage := some msg
                         updatedAt := now₂ },
          { d with status := .error, updatedAt := now₂ }, ?_, rfl, rfl, ?_, rfl⟩
        · dsimp only
          rw [getRow_patchRow, if_pos rfl, ha₁]
          rfl
        · dsimp only
          rw [getRow_patchRow, if_pos rfl, hd₁]
          rfl
    · refine ⟨?_, ?_, ?_⟩
      rotate_left
      · rw [analyzeDocument_eq h1]
        exact analyzeFinish_of_attempt_ok
          (by rw [hat]; exact completeAnalysis_some ha₁ hd₁)
      · intro msg2 hmsg2 a2 hga2
        rw [show failureMsg contentType modelResult = none from by
          rw [hmr]; unfold failureMsg; rw [hmt]] at hmsg2
        cases hmsg2

/-! ## The claims -/

/-- The lockstep property exactly as claimed: after every completed operation
of the system, every document's status equals the status of its most recently
created analysis (when one exists). -/
def statusLockstep : Prop := ∀ s, Reach s → syncB s = true

/-- C1 counterexample: the claim fails as stated.  Run two concurrent
analyses on the same document (`s5`), let the older one (id 4) finish in
`error`: the document's status becomes `error` while the most recently
created analysis (id 5) is still `queued`.  The failing state `s7` is
reachable, and `syncB s7` evaluates to `false`. -/
theorem statusLockstep_cex : ¬ statusLockstep :=
  fun h => absurd (h s7 reach_s7) (by decide)

/-- C1 (amended): in any single-flight execution — the internal status
mutations only ever target the document's most recently created analysis, the
discipline the UI's disabled re-run button is meant to maintain — after every
completed operation every document's status equals the status of its most
recently created analysis, once at least one analysis exists.  With
concurrent re-runs the dual-write of an older analysis's job overwrites the
document status (last-write-wins), breaking the correspondence, as
`statusLockstep_cex` shows. -/
theorem statusLockstep_singleFlight (s : DB) (h : ReachSF s) : syncB s = true :=
  syncB_iff.mpr (Sync_reachSF h)

/-- Witness for C1 (amended) at the single-flight state `t6` (one analysis
run to `error`). -/
theorem statusLockstep_singleFlight_witness : syncB t6 = true :=
  statusLockstep_singleFlight t6 reachSF_t6

/-- C2: in every reachable state, an analysis's `report` is set iff its
status is `complete`, and its `errorMessage` is set iff its status is
`error`. -/
theorem report_errorMessage_iff_status (s : DB) (h : Reach s) :
    ∀ p ∈ s.analyses,
      ((p.2.report.isSome = true) ↔ p.2.status = .complete) ∧
      ((p.2.errorMessage.isSome = true) ↔ p.2.status = .error) :=
  (DBInv_reach h).repIff

/-- The `error` analysis row of the reachable state `s7`. -/
def a4err : Analysis :=
  { documentId := 3, practiceId := 0, status := .error
    report := none, errorMessage := some "model unavailable"
    createdBy := "u1", createdAt := 300, updatedAt := 600 }

/-- Witness for C2 at the reachable state `s7`, on its `error` analysis row
(an `errorMessage` is present, no `report`). -/
theorem report_errorMessage_iff_status_witness :
    ((a4err.report.isSome = true) ↔ a4err.status = .complete) ∧
    ((a4err.errorMessage.isSome = true) ↔ a4err.status = .error) :=
  report_errorMessage_iff_status s7 reach_s7 (4, a4err) (by decide)

/-- The stability property exactly as claimed: no step moves an analysis's
status, or its parent document's status, away from `complete`/`error` —
with `runLyra` (which creates a brand-new queued analysis) as the only
exception, needed only for the document part. -/
def terminalStability : Prop :=
  (∀ (l : OpLabel) (s s' : DB), Reach s → Step l s s' →
    ∀ analysisId a a', getRow s.analyses analysisId = some a →
      (a.status = .complete ∨ a.status = .error) →
      getRow s'.analyses analysisId = some a' → a'.status = a.status) ∧
  (∀ (l : OpLabel) (s s' : DB), Reach s → Step l s s' → ¬ l = .runLyraOp →
    ∀ d doc doc', getRow s.documents d = some doc →
      (doc.status = .complete ∨ doc.status = .error) →
      getRow s'.documents d = some doc' → doc'.status = doc.status)

/-- C3 counterexample: with two concurrent analyses, after the older one ends
in `error` (state `s7`, document `error`), the second job's
`updateAnalysisStatus … processing` — not a `runLyra` — drags the document
back to `processing` (state `s8`). -/
theorem terminalStability_cex : ¬ terminalStability := by
  intro h
  have h2 := h.2 .jobStart s7 s8 reach_s7 step_s7_s8 (by decide) 3
    { docTest with status := .error, updatedAt := 600 }
    { docTest with status := .processing, updatedAt := 700 }
    (by decide) (by decide) (by decide)
  exact absurd h2 (by decide)

/-- C3 (amended): an analysis's status never leaves `complete`/`error` under
any step of any execution (single-flight or not; `runLyra` never mutates an
existing analysis row).  The parent document's status never leaves
`complete`/`error` under any non-`runLyra` step of a *single-flight*
execution; with concurrent analyses in flight, an internal mutation of an
older sibling can also move the document's status, as `terminalStability_cex`
shows. -/
theorem terminalStability_amended :
    (∀ (c : DB → Nat → Prop) (l : OpLabel) (s s' : DB), ReachC c s →
      StepC c l s s' →
      ∀ analysisId a a', getRow s.analyses analysisId = some a →
        (a.status = .complete ∨ a.status = .error) →
        getRow s'.analyses analysisId = some a' → a'.status = a.status) ∧
    (∀ (l : OpLabel) (s s' : DB), ReachSF s → StepSF l s s' → ¬ l = .runLyraOp →
      ∀ d doc doc', getRow s.documents d = some doc →
        (doc.status = .complete ∨ doc.status = .error) →
        getRow s'.documents d = some doc' → doc'.status = doc.status) := by
  constructor
  · intro c l s s' hr hs analysisId a a' hga hterm hga'
    exact congrArg Analysis.status
      (analysis_terminal_step (DBInv_reach hr) hs hga hterm hga')
  · intro l s s' hr hs hl d doc doc' hgd hterm hgd'
    exact doc_terminal_stepSF (DBInv_reach hr) (Sync_reachSF hr) hs hl hgd
      hterm hgd'

/-- Witness for C3 (amended): the `error` analysis 4 keeps its status across
the step `s7 → s8`, and the `error` document keeps its status across the
single-flight step `t6 → t7`. -/
theorem terminalStability_amended_witness :
    ({ documentId := 3, practiceId := 0, status := AStatus.error, report := none
       errorMessage := some "model unavailable", createdBy := "u1"
       createdAt := 300, updatedAt := 600 } : Analysis).status =
      ({ documentId := 3, practiceId := 0, status := AStatus.error, report := none
         errorMessage := some "model unavailable", createdBy := "u1"
         createdAt := 300, updatedAt := 600 } : Analysis).status ∧
    ({ docTest with status := DocStatus.error, updatedAt := 600 }).status =
      ({ docTest with status := DocStatus.error, updatedAt := 600 }).status :=
  ⟨terminalStability_amended.1 anyFlight .jobStart s7 s8 reach_s7 step_s7_s8 4
      _ _ (by decide) (by decide) (by decide),
   terminalStability_amended.2 .blobUpload t6 t7 reachSF_t6 stepSF_t6_t7
      (by decide) 3 _ _ (by decide) (by decide) (by decide)⟩

/-- C4: for an authenticated caller with access to the parent document whose
blob URL resolves, `runLyra` appends exactly one new `queued` analysis row
(id `s.nextId`), patches the parent document to `queued`, appends exactly one
scheduled extraction job carrying that analysis id, the resolved URL and the
document's content type, and returns the new analysis id. -/
theorem runLyra_success (s : DB) (user : User) (documentId now : Nat)
    (document : Document) (documentUrl : String)
    (hdoc : getRow s.documents documentId = some document)
    (hacc : verifyPracticeAccess s document.practiceId user.id = .ok ())
    (hurl : getRow s.storage document.storageId = some documentUrl) :
    runLyra s (some user) documentId now =
      .ok (runLyraPost s user.id documentId now document documentUrl, s.nextId) ∧
    (runLyraPost s user.id documentId now document documentUrl).analyses =
      s.analyses ++ [(s.nextId,
        { documentId := documentId, practiceId := document.practiceId
          status := .queued, report := none, errorMessage := none
          createdBy := user.id, createdAt := now, updatedAt := now })] ∧
    getRow (runLyraPost s user.id documentId now document documentUrl).documents
        documentId = some { document with status := .queued, updatedAt := now } ∧
    (runLyraPost s user.id documentId now document documentUrl).scheduled =
      s.scheduled ++ [{ analysisId := s.nextId, documentUrl := documentUrl
                        contentType := document.contentType, phase := .pending }] := by
  refine ⟨runLyra_eq hdoc hacc hurl, rfl, ?_, rfl⟩
  dsimp only [runLyraPost]
  rw [getRow_patchRow, if_pos rfl, hdoc]
  rfl

/-- Witness for C4 at state `s3` (one uploaded PDF document). -/
theorem runLyra_success_witness :
    runLyra s3 (some uTest) 3 300 =
      .ok (runLyraPost s3 "u1" 3 300 docTest urlTest, 4) ∧
    (runLyraPost s3 "u1" 3 300 docTest urlTest).analyses =
      s3.analyses ++ [(4,
        { documentId := 3, practiceId := 0, status := .queued, report := none
          errorMessage := none, createdBy := "u1", createdAt := 300
          updatedAt := 300 })] ∧
    getRow (runLyraPost s3 "u1" 3 300 docTest urlTest).documents 3 =
      some { docTest with status := .queued, updatedAt := 300 } ∧
    (runLyraPost s3 "u1" 3 300 docTest urlTest).scheduled =
      s3.scheduled ++ [{ analysisId := 4, documentUrl := urlTest
                         contentType := "application/pdf", phase := .pending }] :=
  runLyra_success s3 uTest 3 300 docTest urlTest (by decide) (by decide) (by decide)

/-- C5: when the blob reference of the document cannot be resolved to a URL,
`runLyra` throws `"Could not get document URL"`.  A Convex mutation is a
transaction, and a thrown error rolls back all of its writes; the embedding
returns `Except.error` with *no* successor state, which is exactly that
semantics: the queued analysis row inserted earlier in the handler and the
document-status patch do not persist, so no analysis row transitions past
`queued` and the entity store is unchanged. -/
theorem runLyra_url_resolution_failure (s : DB) (user : User)
    (documentId now : Nat) (document : Document)
    (hdoc : getRow s.documents documentId = some document)
    (hacc : verifyPracticeAccess s document.practiceId user.id = .ok ())
    (hurl : getRow s.storage document.storageId = none) :
    runLyra s (some user) documentId now = .error "Could not get document URL" := by
  simp [runLyra, requireAuth, patchDoc, hdoc, hacc, hurl]

/-- State `s3` with the backing blob externally removed. -/
def s3blobGone : DB := { s3 with storage := [] }

/-- Witness for C5: the blob of document 3 has been removed. -/
theorem runLyra_url_resolution_failure_witness :
    runLyra s3blobGone (some uTest) 3 999 = .error "Could not get document URL" :=
  runLyra_url_resolution_failure s3blobGone uTest 3 999 docTest
    (by decide) (by decide) (by decide)

/-- C6: in every reachable state the internal mutations are silent no-ops
when the analysis id no longer resolves, they always succeed (never throw) on
every input, and an existing analysis always has an existing parent document
— which is why their unconditional `ctx.db.patch` on the parent never
targets a missing record, even when a document is deleted mid-flight (the
deletion removes the document's analyses in the same transaction). -/
theorem internal_mutations_tolerant (s : DB) (h : Reach s) :
    (∀ (analysisId : Nat) (status : AStatus) (report : InsurancePlanReport)
        (errorMessage : String) (now : Nat),
      getRow s.analyses analysisId = none →
        updateAnalysisStatus s analysisId status now = .ok s ∧
        completeAnalysis s analysisId report now = .ok s ∧
        failAnalysis s analysisId errorMessage now = .ok s) ∧
    (∀ (analysisId : Nat) (status : AStatus) (report : InsurancePlanReport)
        (errorMessage : String) (now : Nat),
      (∃ s₁, updateAnalysisStatus s analysisId status now = .ok s₁) ∧
      (∃ s₂, completeAnalysis s analysisId report now = .ok s₂) ∧
      (∃ s₃, failAnalysis s analysisId errorMessage now = .ok s₃)) ∧
    (∀ analysisId a, getRow s.analyses analysisId = some a →
      (getRow s.documents a.documentId).isSome = true) := by
  refine ⟨?_, ?_, ?_⟩
  · intro analysisId status report errorMessage now h0
    exact ⟨updateAnalysisStatus_none h0, completeAnalysis_none h0,
      failAnalysis_none h0⟩
  · intro analysisId status report errorMessage now
    cases hga : getRow s.analyses analysisId with
    | none =>
      exact ⟨⟨s, updateAnalysisStatus_none hga⟩, ⟨s, completeAnalysis_none hga⟩,
        ⟨s, failAnalysis_none hga⟩⟩
    | some a =>
      obtain ⟨d, hd⟩ := (DBInv_reach h).parentDoc hga
      exact ⟨⟨_, updateAnalysisStatus_some hga hd⟩,
        ⟨_, completeAnalysis_some hga hd⟩, ⟨_, failAnalysis_some hga hd⟩⟩
  · intro analysisId a hga
    exact (DBInv_reach h).parent (analysisId, a) (getRow_mem hga)

/-- A minimal schema-conforming report used as test data. -/
def reportTest : InsurancePlanReport :=
  { planOverview := { planName := "Acme Gold", carrier := "Acme"
                      planType := "PPO", effectiveDate := "-", groupNumber := "-" }
    costSharing := { deductible := { individual := "-", family := "-"
                                     inNetwork := "-", outOfNetwork := "-" }
                     outOfPocketMax := { individual := "-", family := "-"
                                         inNetwork := "-", outOfNetwork := "-" }
                     copays := [], coinsurance := [] }
    coverageDetails := []
    prescriptionDrug := { tiers := [], deductible := "-", mailOrder := "-" }
    additionalBenefits := [], importantNotes := [], extractedFields := []
    documentQuality := { isReadable := true, imageQuality := .good
                         missingInfo := [], suggestedActions := [] } }

/-- Witness for C6 at the reachable state `s5`: analysis id 99 does not
resolve (no-ops), analysis id 4 does (the mutations succeed), and its parent
document 3 exists. -/
theorem internal_mutations_tolerant_witness :
    (updateAnalysisStatus s5 99 .complete 900 = .ok s5 ∧
     completeAnalysis s5 99 reportTest 900 = .ok s5 ∧
     failAnalysis s5 99 "boom" 900 = .ok s5) ∧
    ((∃ s₁, updateAnalysisStatus s5 4 .processing 900 = .ok s₁) ∧
     (∃ s₂, completeAnalysis s5 4 reportTest 900 = .ok s₂) ∧
     (∃ s₃, failAnalysis s5 4 "boom" 900 = .ok s₃)) ∧
    (getRow s5.documents 3).isSome = true := by
  have h := internal_mutations_tolerant s5 reach_s5
  exact ⟨h.1 99 .complete reportTest "boom" 900 (by decide),
    h.2.1 4 .processing reportTest "boom" 900,
    h.2.2 4 { documentId := 3, practiceId := 0, status := .queued, report := none
              errorMessage := none, createdBy := "u1", createdAt := 300
              updatedAt := 300 } (by decide)⟩

/-- C7: on every reachable store the extraction adapter `analyzeDocument`
never raises to its caller — it returns `.ok` for *every* input (any content
type, any model outcome, even a stale analysis id) — and whenever its input
fails (`failureMsg` is the unsupported-content-type message for anything that
is neither `image/*` nor `application/pdf`, or the model failure message)
while the analysis row still exists, the analysis and its parent document end
in status `error` with that message stored in `errorMessage`. -/
theorem analyzeDocument_never_throws (s : DB) (h : Reach s) (analysisId : Nat)
    (documentUrl contentType : String) (now₁ now₂ : Nat)
    (modelResult : Except String InsurancePlanReport) :
    ∃ s', analyzeDocument s analysisId documentUrl contentType now₁ now₂
        modelResult = .ok s' ∧
      ∀ msg, failureMsg contentType modelResult = some msg →
        ∀ a, getRow s.analyses analysisId = some a →
          ∃ a' d', getRow s'.analyses analysisId = some a' ∧
            a'.status = .error ∧ a'.errorMessage = some msg ∧
            getRow s'.documents a.documentId = some d' ∧ d'.status = .error :=
  analyzeDocument_spec s (DBInv_reach h) analysisId documentUrl contentType
    now₁ now₂ modelResult

/-- Witness for C7 at state `s5`, submitting `text/plain` to the adapter. -/
theorem analyzeDocument_never_throws_witness :
    ∃ s', analyzeDocument s5 4 urlTest "text/plain" 500 600
        (.error "network down") = .ok s' ∧
      ∀ msg, failureMsg "text/plain" (.error "network down") = some msg →
        ∀ a, getRow s5.analyses 4 = some a →
          ∃ a' d', getRow s'.analyses 4 = some a' ∧
            a'.status = .error ∧ a'.errorMessage = some msg ∧
            getRow s'.documents a.documentId = some d' ∧ d'.status = .error :=
  analyzeDocument_never_throws s5 reach_s5 4 urlTest "text/plain" 500 600
    (.error "network down")

/-- C8: `getOrCreatePractice` is idempotent for a fresh identity — both calls
return the same practice id (and the same practice row), and together they
create exactly one practice row and exactly one `owner` membership row. -/
theorem getOrCreatePractice_idempotent (s : DB) (user : User) (now₁ now₂ : Nat)
    (hinv : DBInv s)
    (hfresh : s.practiceMembers.find? (fun p => p.2.userId == user.id) = none) :
    getOrCreatePractice s (some user) now₁ =
      .ok (practiceCreatedState s user now₁, s.nextId,
        some { name := practiceNameFor user, ownerId := user.id
               createdAt := now₁, updatedAt := now₁ }) ∧
    getOrCreatePractice (practiceCreatedState s user now₁) (some user) now₂ =
      .ok (practiceCreatedState s user now₁, s.nextId,
        some { name := practiceNameFor user, ownerId := user.id
               createdAt := now₁, updatedAt := now₁ }) ∧
    (practiceCreatedState s user now₁).practices =
      s.practices ++ [(s.nextId,
        { name := practiceNameFor user, ownerId := user.id
          createdAt := now₁, updatedAt := now₁ })] ∧
    (practiceCreatedState s user now₁).practiceMembers =
      s.practiceMembers ++ [(s.nextId + 1,
        { practiceId := s.nextId, userId := user.id, role := .owner
          createdAt := now₁ })] := by
  have hp : getRow (practiceCreatedState s user now₁).practices s.nextId =
      some { name := practiceNameFor user, ownerId := user.id
             createdAt := now₁, updatedAt := now₁ } := by
    dsimp only [practiceCreatedState]
    exact getRow_append_fresh _ _ _ hinv.1
  have hfind2 : (practiceCreatedState s user now₁).practiceMembers.find?
      (fun p => p.2.userId == user.id) = some (s.nextId + 1,
        { practiceId := s.nextId, userId := user.id, role := .owner
          createdAt := now₁ }) := by
    dsimp only [practiceCreatedState]
    rw [List.find?_append, hfresh]
    simp
  refine ⟨?_, ?_, rfl, rfl⟩
  · have h1 := @getOrCreatePractice_fresh _ _ now₁ hfresh
    rw [hp] at h1
    exact h1
  · exact getOrCreatePractice_existing hfind2 hp

def u2Test : User := { id := "u2", email := some "bob@clinic.test" }

/-- Witness for C8: a second, fresh identity joins at state `s3`. -/
theorem getOrCreatePractice_idempotent_witness :
    getOrCreatePractice s3 (some u2Test) 900 =
      .ok (practiceCreatedState s3 u2Test 900, 4,
        some { name := practiceNameFor u2Test, ownerId := "u2"
               createdAt := 900, updatedAt := 900 }) ∧
    getOrCreatePractice (practiceCreatedState s3 u2Test 900) (some u2Test) 901 =
      .ok (practiceCreatedState s3 u2Test 900, 4,
        some { name := practiceNameFor u2Test, ownerId := "u2"
               createdAt := 900, updatedAt := 900 }) ∧
    (practiceCreatedState s3 u2Test 900).practices =
      s3.practices ++ [(4, { name := practiceNameFor u2Test, ownerId := "u2"
                             createdAt := 900, updatedAt := 900 })] ∧
    (practiceCreatedState s3 u2Test 900).practiceMembers =
      s3.practiceMembers ++ [(5, { practiceId := 4, userId := "u2", role := .owner
                                   createdAt := 900 })] :=
  getOrCreatePractice_idempotent s3 u2Test 900 901 (by decide) (by decide)

/-- C9: a successful `deleteDocument` removes every analysis referencing the
document, the backing blob, and the document row — and the effect list shows
it does so in that order (dependent analysis rows first, then the blob, then
the parent row).  A subsequent `getDocument` on the same id fails with
`"Document not found"`. -/
theorem deleteDocument_cascades (s : DB) (user : User) (documentId : Nat)
    (document : Document)
    (hdoc : getRow s.documents documentId = some document)
    (hacc : verifyPracticeAccess s document.practiceId user.id = .ok ()) :
    deleteDocument s (some user) documentId =
      .ok (deleteDocumentPost s documentId document,
        (s.analyses.filter (fun q => q.2.documentId == documentId)).map
          (fun q => DeleteEffect.analysisRow q.1) ++
        [DeleteEffect.blob document.storageId,
         DeleteEffect.documentRow documentId]) ∧
    (∀ k a, getRow (deleteDocumentPost s documentId document).analyses k =
        some a → ¬ a.documentId = documentId) ∧
    getRow (deleteDocumentPost s documentId document).documents documentId =
      none ∧
    getRow (deleteDocumentPost s documentId document).storage
      document.storageId = none ∧
    getDocument (deleteDocumentPost s documentId document) (some user)
      documentId = .error "Document not found" := by
  have h3 : getRow (deleteDocumentPost s documentId document).documents
      documentId = none := by
    dsimp only [deleteDocumentPost]
    rw [getRow_delRow, if_pos rfl]
  refine ⟨deleteDocument_eq hdoc hacc, ?_, h3, ?_, ?_⟩
  · intro k a hk he
    have hk2 : (k, a) ∈ s.analyses.filter (fun p =>
        !(((s.analyses.filter (fun q => q.2.documentId == documentId)).map
            (fun q => q.1)).contains p.1)) := getRow_mem hk
    have hmem := List.mem_filter.mp hk2
    have hin : (k, a) ∈ s.analyses.filter
        (fun q => q.2.documentId == documentId) :=
      List.mem_filter.mpr ⟨hmem.1, by simp [he]⟩
    have hmm : k ∈ (s.analyses.filter
        (fun q => q.2.documentId == documentId)).map (fun q => q.1) :=
      List.mem_map.mpr ⟨(k, a), hin, rfl⟩
    have hcon := contains_of_mem hmm
    exact absurd hmem.2 (by rw [hcon]; simp)
  · dsimp only [deleteDocumentPost]
    rw [getRow_delRow, if_pos rfl]
  · simp [getDocument, h3]

/-- The document row of `docTest` as it stands in state `s7`. -/
def doc7 : Document := { docTest with status := .error, updatedAt := 600 }

/-- Witness for C9: delete document 3 at state `s7`; analyses 4 and 5 go
first, then the blob, then the document row. -/
theorem deleteDocument_cascades_witness :
    deleteDocument s7 (some uTest) 3 =
      .ok (deleteDocumentPost s7 3 doc7,
        [DeleteEffect.analysisRow 4, DeleteEffect.analysisRow 5,
         DeleteEffect.blob 2, DeleteEffect.documentRow 3]) ∧
    getRow (deleteDocumentPost s7 3 doc7).documents 3 = none ∧
    getDocument (deleteDocumentPost s7 3 doc7) (some uTest) 3 =
      .error "Document not found" := by
  have h := deleteDocument_cascades s7 uTest 3 doc7 (by decide) (by decide)
  exact ⟨h.1, h.2.2.1, h.2.2.2.2⟩

/-- C10: `createDocument` performs no validation of content type or size —
for any authenticated member it inserts a row with the given `contentType`
and `sizeBytes` verbatim and status `uploaded`.  The 10 MB limit and the
PDF/PNG/JPEG allow-list are enforced only client-side (`handleFileSelect`
rejects a disallowed type, then an oversized file).  A file of an unsupported
type that bypasses the client is accepted by the backend and only surfaces as
a failed analysis: `analyzeDocument` marks the analysis and document `error`
with message "Unsupported content type: ...". -/
theorem createDocument_no_validation :
    (∀ (s : DB) (user : User) (practiceId storageId : Nat)
        (filename contentType : String) (sizeBytes : Int) (now : Nat),
      DBInv s →
      requirePracticeMembership s user.id = .ok practiceId →
      createDocument s (some user) storageId filename contentType sizeBytes
          now =
        .ok ({ s with
                documents := s.documents ++ [(s.nextId,
                  { practiceId := practiceId, storageId := storageId
                    filename := filename, contentType := contentType
                    sizeBytes := sizeBytes, status := .uploaded
                    uploadedBy := user.id, createdAt := now
                    updatedAt := now })]
                nextId := s.nextId + 1 }, s.nextId) ∧
      getRow ({ s with
                documents := s.documents ++ [(s.nextId,
                  { practiceId := practiceId, storageId := storageId
                    filename := filename, contentType := contentType
                    sizeBytes := sizeBytes, status := .uploaded
                    uploadedBy := user.id, createdAt := now
                    updatedAt := now })]
                nextId := s.nextId + 1 } : DB).documents s.nextId =
        some { practiceId := practiceId, storageId := storageId
               filename := filename, contentType := contentType
               sizeBytes := sizeBytes, status := .uploaded
               uploadedBy := user.id, createdAt := now, updatedAt := now }) ∧
    (∀ (fileType : String) (fileSize : Nat), ¬ fileType ∈ ACCEPTED_TYPES →
      handleFileSelect fileType fileSize = .rejectedType) ∧
    (∀ fileSize : Nat, fileSize > MAX_FILE_SIZE →
      handleFileSelect "application/pdf" fileSize = .rejectedSize) ∧
    (∀ (s : DB) (analysisId : Nat) (documentUrl contentType : String)
        (now₁ now₂ : Nat) (modelResult : Except String InsurancePlanReport)
        (a : Analysis),
      Reach s → mediaTypeFor contentType = none →
      getRow s.analyses analysisId = some a →
      ∃ s' a' d', analyzeDocument s analysisId documentUrl contentType
          now₁ now₂ modelResult = .ok s' ∧
        getRow s'.analyses analysisId = some a' ∧
        a'.status = .error ∧
        a'.errorMessage = some ("Unsupported content type: " ++ contentType) ∧
        getRow s'.documents a.documentId = some d' ∧
        d'.status = .error) := by
  refine ⟨?_, ?_, ?_, ?_⟩
  · intro s user practiceId storageId filename contentType sizeBytes now
      hinv hm
    refine ⟨createDocument_eq hm, ?_⟩
    exact getRow_append_fresh _ _ _ hinv.2.2.1
  · intro fileType fileSize hft
    have hb : ACCEPTED_TYPES.contains fileType = false := by simpa using hft
    unfold handleFileSelect
    rw [hb]
    simp
  · intro fileSize hfs
    unfold handleFileSelect
    rw [if_neg (by decide), if_pos hfs]
  · intro s analysisId documentUrl contentType now₁ now₂ modelResult a
      hr hmt hga
    obtain ⟨s', hok, hcont⟩ := analyzeDocument_spec s (DBInv_reach hr)
      analysisId documentUrl contentType now₁ now₂ modelResult
    obtain ⟨a', d', hga', hst', hmsg', hgd', hds'⟩ :=
      hcont _ (failureMsg_unsupported hmt) a hga
    exact ⟨s', a', d', hok, hga', hst', hmsg', hgd', hds'⟩

/-- Witness for C10: at state `s2` a `text/plain` file of 123 bytes is
accepted by the backend; the client rejects the same type, rejects an
oversized PDF; and at state `s5` analysing the `text/plain` upload ends in
an `error` analysis with the unsupported-content-type message. -/
theorem createDocument_no_validation_witness :
    (createDocument s2 (some uTest) 2 "notes.txt" "text/plain" 123 250 =
      .ok ({ s2 with
              documents := s2.documents ++ [(3,
                { practiceId := 0, storageId := 2
                  filename := "notes.txt", contentType := "text/plain"
                  sizeBytes := 123, status := .uploaded
                  uploadedBy := "u1", createdAt := 250
                  updatedAt := 250 })]
              nextId := 4 }, 3) ∧
     getRow ({ s2 with
              documents := s2.documents ++ [(3,
                { practiceId := 0, storageId := 2
                  filename := "notes.txt", contentType := "text/plain"
                  sizeBytes := 123, status := .uploaded
                  uploadedBy := "u1", createdAt := 250
                  updatedAt := 250 })]
              nextId := 4 } : DB).documents 3 =
       some { practiceId := 0, storageId := 2
              filename := "notes.txt", contentType := "text/plain"
              sizeBytes := 123, status := .uploaded
              uploadedBy := "u1", createdAt := 250, updatedAt := 250 }) ∧
    handleFileSelect "text/plain" 123 = .rejectedType ∧
    handleFileSelect "application/pdf" (10 * 1024 * 1024 + 1) =
      .rejectedSize ∧
    (∃ (s' : DB) (a' : Analysis) (d' : Document),
      analyzeDocument s5 4 urlTest "text/plain" 800 801
        (.error "x") = .ok s' ∧
      getRow s'.analyses 4 = some a' ∧
      a'.status = .error ∧
      a'.errorMessage = some ("Unsupported content type: " ++ "text/plain") ∧
      getRow s'.documents 3 = some d' ∧
      d'.status = .error) := by
  have h := createDocument_no_validation
  refine ⟨h.1 s2 uTest 0 2 "notes.txt" "text/plain" 123 250 (by decide)
      (by decide),
    h.2.1 "text/plain" 123 (by decide),
    h.2.2.1 (10 * 1024 * 1024 + 1) (by decide),
    ?_⟩
  have h4 := h.2.2.2 s5 4 urlTest "text/plain" 800 801 (.error "x")
    { documentId := 3, practiceId := 0, status := .queued
      report := none, errorMessage := none, createdBy := "u1"
      createdAt := 300, updatedAt := 300 }
  exact h4 reach_s5 (by decide) (by decide)
